import Mathlib

/-!
Verification of the mailbuilder message decompose/build library.

The Go sources are shallowly embedded over byte lists (`Bytes := List Nat`,
one `Nat` per byte).  Go strings and byte slices are both byte sequences and
are modelled by the same type.  All loops are modelled by structural
recursion on an explicit fuel argument; every top-level entry point receives
fuel that is large enough for the given input (each loop iteration of the
source consumes at least one byte of input), so the fuel never runs out on
the executions the theorems talk about.
-/

set_option maxRecDepth 100000

namespace Mailbuilder

abbrev Bytes := List Nat

/-- Helper turning an ASCII string literal into its byte sequence. -/
def bs (s : String) : Bytes := s.data.map Char.toNat

/-- Space or horizontal tab, the two bytes Go's `trim` helper removes
(part_001, `trim`, lines 66-76). -/
def isSpTab (c : Nat) : Bool := c = 32 || c = 9

/-- part_001 `trim`: remove leading and trailing spaces and tabs. -/
def trim (s : Bytes) : Bytes :=
  ((s.dropWhile isSpTab).reverse.dropWhile isSpTab).reverse

/-- part_001 `isASCIILetter` (lines 668-671). -/
def isASCIILetter (b : Nat) : Bool :=
  let l := b ||| 0x20
  97 ≤ l && l ≤ 122

/-- Split the stream at the first LF byte: `some (before, after)` when a LF
exists, `none` otherwise.  Helper for the `bufio.Reader.ReadLine` model. -/
def splitAtNl : Bytes → Option (Bytes × Bytes)
  | [] => none
  | c :: cs =>
    if c = 10 then some ([], cs)
    else match splitAtNl cs with
      | some (b, a) => some (c :: b, a)
      | none => none

/-- Drop a single trailing CR, as `bufio.Reader.ReadLine` does when the line
terminator is CRLF. -/
def dropCr (l : Bytes) : Bytes :=
  if l.getLast? = some 13 then l.dropLast else l

/-- `bufio.Reader.ReadLine` over an in-memory stream: one line with its
terminator (`\n` or `\r\n`) stripped, plus the rest of the stream.  At end of
input with pending bytes the data is returned and the *next* call reports
EOF (`none`); on empty input it reports EOF.  This is also the semantics of
`mailtextproto.Reader.readLineSlice` (part_001, lines 39-62), whose
`originalLine` equals the line for in-memory streams. -/
def readLine (input : Bytes) : Option (Bytes × Bytes) :=
  match input with
  | [] => none
  | _ =>
    match splitAtNl input with
    | some (before, after) => some (dropCr before, after)
    | none => some (input, [])

/-- part_001 `Reader.skipSpace` (lines 127-144): consume leading spaces and
tabs, returning them together with the rest of the stream. -/
def skipSpace (input : Bytes) : Bytes × Bytes :=
  (input.takeWhile isSpTab, input.dropWhile isSpTab)

/-- Continuation loop of part_001 `readContinuedLineSlice` (lines 104-122):
as long as the next line starts with space/tab, append a space plus the
trimmed line to the logical value and `\n` + skipped whitespace + raw line
to the original bytes.  A read error (end of input) breaks the loop. -/
def contLoop : Nat → Bytes → Bytes → Bytes → Bytes × Bytes × Bytes
  | 0, buf, orig, rest => (buf, orig, rest)
  | fuel+1, buf, orig, rest =>
    match skipSpace rest with
    | (skipped, rest1) =>
      if skipped = [] then (buf, orig, rest)
      else match readLine rest1 with
        | none => (buf, orig, rest1)
        | some (line2, rest2) =>
          contLoop fuel (buf ++ [32] ++ trim line2)
            (orig ++ [10] ++ skipped ++ line2) rest2

/-- part_001 `readContinuedLineSlice` (lines 78-124).  Returns
`none` on EOF (empty input), otherwise the folded logical line, the raw
bytes of all consumed lines (joined by `\n`, terminators stripped) and the
rest of the stream.  The buffered-ASCII-letter fast path returns the same
values as the general path and is modelled by its observable condition. -/
def readContinuedLine (input : Bytes) : Option (Bytes × Bytes × Bytes) :=
  match readLine input with
  | none => none
  | some (line, rest) =>
    if line = [] then some ([], [], rest)
    else if 1 < rest.length ∧ (rest.head?.elim false isASCIILetter) then
      some (trim line, line, rest)
    else
      some (contLoop rest.length (trim line) line rest)

/-- part_001 `validHeaderFieldByte` (lines 494-496) against `isTokenTable`
(lines 588-666). -/
def validHeaderFieldByte (b : Nat) : Bool :=
  b ∈ ([33, 35, 36, 37, 38, 39, 42, 43, 45, 46] : List Nat) ||
  (48 ≤ b && b ≤ 57) || (65 ≤ b && b ≤ 90) ||
  (94 ≤ b && b ≤ 96) || (97 ≤ b && b ≤ 122) || b = 124 || b = 126

/-- Case-mapping loop of part_001 `canonicalMIMEHeaderKey` (lines 514-527):
first letter and letters after a hyphen upper-cased, the rest lower-cased. -/
def canonLoop : Bool → Bytes → Bytes
  | _, [] => []
  | upper, c :: cs =>
    let c2 :=
      if upper && (97 ≤ c && c ≤ 122) then c - 32
      else if !upper && (65 ≤ c && c ≤ 90) then c + 32
      else c
    c2 :: canonLoop (c2 = 45) cs

/-- part_001 `canonicalMIMEHeaderKey` / `CanonicalMIMEHeaderKey` (lines
466-535): keys containing a byte that is not a valid header-token byte are
returned unmodified, others are canonicalized.  The `commonHeader`
interning table only shares allocations and is observationally the
identity. -/
def canonicalMIMEHeaderKey (a : Bytes) : Bytes :=
  if a.all validHeaderFieldByte then canonLoop true a else a

/-- The header multi-map `textproto.MIMEHeader`.  Go's map is unordered; the
association list keeps entries in first-insertion order, which fixes one
admissible iteration order (see spec section 9 on this non-determinism). -/
abbrev Header := List (Bytes × List Bytes)

/-- Map lookup by canonical key (Go `m[key]` with a canonical key). -/
def hdrFind (h : Header) (key : Bytes) : Option (List Bytes) :=
  (h.find? (fun e => e.1 = key)).map (·.2)

/-- `textproto.MIMEHeader.Get`: canonicalize, then the first value, or the
empty string when the key is absent or has no values. -/
def hdrGet (h : Header) (key : Bytes) : Bytes :=
  match hdrFind h (canonicalMIMEHeaderKey key) with
  | some (v :: _) => v
  | _ => []

/-- `ReadMIMEHeader`'s value accumulation `m[key] = append(m[key], value)`:
append the value to the existing entry, or add a new entry at the end. -/
def hdrAdd (h : Header) (key value : Bytes) : Header :=
  match h with
  | [] => [(key, [value])]
  | (k, vs) :: rest =>
    if k = key then (k, vs ++ [value]) :: rest
    else (k, vs) :: hdrAdd rest key value

/-- `textproto.MIMEHeader.Set`: replace all values of the canonical key. -/
def hdrSet (h : Header) (key value : Bytes) : Header :=
  let ck := canonicalMIMEHeaderKey key
  if (h.find? (fun e => e.1 = ck)).isSome then
    h.map (fun e => if e.1 = ck then (ck, [value]) else e)
  else h ++ [(ck, [value])]

/-- `textproto.MIMEHeader.Del`: remove the canonical key. -/
def hdrDel (h : Header) (key : Bytes) : Header :=
  let ck := canonicalMIMEHeaderKey key
  h.filter (fun e => e.1 ≠ ck)

/-- Error values of the modelled `ReadMIMEHeader`: the two
`textproto.ProtocolError`s with their byte preview, and `io.EOF` (input
exhausted before the blank line ending the header). -/
inductive HdrErr where
  | malformedInitial (preview : Bytes)
  | malformedLine (preview : Bytes)
  | eof
  deriving DecidableEq

/-- Preview construction of part_001 `ReadMIMEHeader` (lines 356-363 and
383-391): the whole line when it has at most 100 bytes, otherwise its first
50 bytes, an ellipsis, and its last 50 bytes. -/
def errorPreview (line : Bytes) : Bytes :=
  if 100 < line.length then
    line.take 50 ++ bs ("...") ++ line.drop (line.length - 50)
  else line

/-- Index of the first colon, `bytes.IndexByte(kv, 58)`. -/
def colonIdx (kv : Bytes) : Option Nat := kv.findIdx? (fun c => c = 58)

/-- Result of `ReadMIMEHeader`: the header map, the raw header block bytes
(`originalHeader`), the unread rest of the stream (the message body), and
the error slot. -/
structure MimeResult where
  m : Header
  oh : Bytes
  rest : Bytes
  err : Option HdrErr
  deriving DecidableEq

/-- Main loop of part_001 `ReadMIMEHeader` (lines 367-432).  Each iteration
reads one folded line, appends its raw bytes to `originalHeader` (joined by
`\n`), stops at an empty logical line (end of header) or EOF, errors on a
logical line without a colon, skips lines whose canonicalized key is empty,
and otherwise accumulates `key: value`. -/
def mimeLoop : Nat → Header → Bytes → Bytes → MimeResult
  | 0, m, oh, input => ⟨m, oh, input, some .eof⟩
  | fuel+1, m, oh, input =>
    match readContinuedLine input with
    | none =>
      let oh2 := if oh ≠ [] then oh ++ [10] else oh
      ⟨m, oh2, input, some .eof⟩
    | some (kv, orig, rest) =>
      let oh2 := (if oh ≠ [] then oh ++ [10] else oh) ++ orig
      if kv = [] then ⟨m, oh2, rest, none⟩
      else match colonIdx kv with
        | none => ⟨m, oh2, rest, some (.malformedLine (errorPreview kv))⟩
        | some i =>
          let endKey := i - ((kv.take i).reverse.takeWhile (fun c => c = 32)).length
          let key := canonicalMIMEHeaderKey (kv.take endKey)
          if key = [] then mimeLoop fuel m oh2 rest
          else
            let value := (kv.drop (i+1)).dropWhile isSpTab
            mimeLoop fuel (hdrAdd m key value) oh2 rest

/-- part_001 `Reader.ReadMIMEHeader` (lines 334-433): reject a first line
starting with space or tab with a `malformed MIME header initial line`
error carrying a preview, then run the header loop.  The
`upcomingHeaderNewlines` allocation hint does not affect results and is not
modelled. -/
def readMIMEHeader (input : Bytes) : MimeResult :=
  match input.head? with
  | some c =>
    if c = 32 ∨ c = 9 then
      match readLine input with
      | some (line, rest) => ⟨[], [], rest, some (.malformedInitial (errorPreview line))⟩
      | none => ⟨[], [], [], some .eof⟩
    else mimeLoop (input.length + 1) [] [] input
  | none => mimeLoop 1 [] [] []

example :
    readMIMEHeader (bs ("A: 1\r\nB: 2\r\n\r\nbody")) =
      ⟨[(bs ("A"), [bs ("1")]), (bs ("B"), [bs ("2")])],
        bs ("A: 1\nB: 2\n"), bs ("body"), none⟩ := by decide

example :
    readMIMEHeader (bs ("My-key: v\n ext\n\nrest")) =
      ⟨[(bs ("My-Key"), [bs ("v ext")])],
        bs ("My-key: v\n ext\n"), bs ("rest"), none⟩ := by decide

example :
    (readMIMEHeader (bs ("\tbad: 1\n\nx"))).err =
      some (.malformedInitial (bs ("\tbad: 1"))) := by decide

example : (readMIMEHeader (bs ("A: 1\nnocolon\n\nx"))).err =
    some (.malformedLine (bs ("nocolon"))) := by decide

example : (readMIMEHeader (bs ("A: 1\n"))).err = some .eof := by decide

/-! ## Message model (message.go) -/

/-- message.go `Message` (lines 11-43).  The `Parent` back-reference is a
non-owning navigation pointer never read by the decomposer or builder and
is not part of the tree value. -/
structure Msg where
  header : Header
  headerIsChanged : Bool
  rawOriginalHeader : Bytes
  headerOrder : List Bytes
  body : Bytes
  parts : List Msg
  bodyMessage : Option Msg
  boundary : Bytes
  idx : Bytes
  isDecoded : Bool
  rfc822Depth : Nat

/-- The zero value of `Message`: what `&Message{}` denotes in Go
(empty header, empty byte fields, no parts, no nested message, all flags
clear). -/
def emptyMsg : Msg :=
  { header := [], headerIsChanged := false, rawOriginalHeader := [],
    headerOrder := [], body := [], parts := [], bodyMessage := none,
    boundary := [], idx := [], isDecoded := false, rfc822Depth := 0 }

/-- message.go `Message.IsMultipart` (lines 46-51). -/
def Msg.isMultipart (m : Msg) : Bool := 0 < m.parts.length

/-- message.go `Message.IsRfc822` (lines 60-62). -/
def Msg.isRfc822 (m : Msg) : Bool := m.bodyMessage.isSome

/-- `strings.Split(line, ":")[0]`: the text before the first colon (the
whole line when there is no colon). -/
def beforeColon (line : Bytes) : Bytes := line.takeWhile (fun c => c ≠ 58)

/-- Loop of message.go `Message.SetOriginalHeaderOrder` (lines 72-93):
read lines of the stored raw header bytes; a non-empty line contributes its
before-colon text to `HeaderOrder` unless that text starts with space or
tab, and its bytes (joined by `\n`) to `RawOriginalHeader`; stop at an
empty line or read error. -/
def sohoLoop : Nat → List Bytes → Bytes → Bytes → List Bytes × Bytes
  | 0, order, raw, _ => (order, raw)
  | fuel+1, order, raw, input =>
    match readLine input with
    | none => (order, raw)
    | some (line, rest) =>
      if line ≠ [] then
        let p0 := beforeColon line
        let order2 :=
          if p0.head? = some 32 ∨ p0.head? = some 9 then order else order ++ [p0]
        let raw2 := (if raw ≠ [] then raw ++ [10] else raw) ++ line
        sohoLoop fuel order2 raw2 rest
      else (order, raw)

/-- message.go `Message.SetOriginalHeaderOrder` (lines 66-94): resets
`HeaderOrder` and appends the re-read lines to the current
`RawOriginalHeader`. -/
def setOriginalHeaderOrder (m : Msg) (body : Bytes) : Msg :=
  let r := sohoLoop (body.length + 1) [] m.rawOriginalHeader body
  { m with headerOrder := r.1, rawOriginalHeader := r.2 }

/-- One iteration of the header loop of message.go `Message.Merge`
(lines 99-105): set the entry's first value in the target, or delete the
key when that value is the empty string.  Go reads `val[0]` and would
panic on an entry with an empty value list; such entries are left alone
here and excluded by hypothesis in the theorems. -/
def mergeStep (acc : Header) (e : Bytes × List Bytes) : Header :=
  match e.2 with
  | v :: _ => if v ≠ [] then hdrSet acc e.1 v else hdrDel acc e.1
  | [] => acc

/-- message.go `Message.Merge` (lines 97-112): copy each source header
entry into the target via `mergeStep`, then replace body, body message,
boundary and parts wholesale and mark the header changed. -/
def merge (c m : Msg) : Msg :=
  { c with header := m.header.foldl mergeStep c.header,
           bodyMessage := m.bodyMessage, body := m.body,
           boundary := m.boundary, parts := m.parts, headerIsChanged := true }

/-! ## Content-encoding codec (utils.go) and its external primitives -/

/-- ASCII lower-casing of `strings.ToLower` (the inputs in scope are
ASCII byte strings, where Go's Unicode lowering agrees with this). -/
def toLowerB (s : Bytes) : Bytes :=
  s.map (fun c => if 65 ≤ c && c ≤ 90 then c + 32 else c)

/-- `strings.Trim(s, cutset)`: remove leading and trailing bytes belonging
to the cutset. -/
def trimCutset (s : Bytes) (cut : List Nat) : Bytes :=
  ((s.dropWhile (fun c => cut.contains c)).reverse.dropWhile
    (fun c => cut.contains c)).reverse

/-- Modelled from the spec: the external base64 primitive (spec section 4.4,
out-of-scope codec).  Standard alphabet value of a sextet. -/
def b64char (n : Nat) : Nat :=
  if n < 26 then 65 + n
  else if n < 52 then 71 + n
  else if n < 62 then n - 4
  else if n = 62 then 43 else 47

/-- Modelled from the spec: `base64.StdEncoding.Encode`, standard base64
with `=` padding. -/
def b64encode : Bytes → Bytes
  | [] => []
  | [a] => [b64char (a / 4), b64char (a % 4 * 16), 61, 61]
  | [a, b] => [b64char (a / 4), b64char (a % 4 * 16 + b / 16), b64char (b % 16 * 4), 61]
  | a :: b :: c :: rest =>
    [b64char (a / 4), b64char (a % 4 * 16 + b / 16),
      b64char (b % 16 * 4 + c / 64), b64char (c % 64)] ++ b64encode rest

/-- Modelled from the spec: value of a standard base64 alphabet byte. -/
def b64charVal (c : Nat) : Option Nat :=
  if 65 ≤ c && c ≤ 90 then some (c - 65)
  else if 97 ≤ c && c ≤ 122 then some (c - 71)
  else if 48 ≤ c && c ≤ 57 then some (c + 4)
  else if c = 43 then some 62
  else if c = 47 then some 63
  else none

/-- Modelled from the spec: quad loop of `base64.StdEncoding.Decode` on
newline-free input; input length must be a multiple of four, padding is
allowed only in the final quad (a padding byte elsewhere has no alphabet
value and is a decode error). -/
def b64quads : Bytes → Option Bytes
  | [] => some []
  | c1 :: c2 :: c3 :: c4 :: rest =>
    if c3 = 61 ∧ c4 = 61 ∧ rest = [] then do
      let v1 ← b64charVal c1
      let v2 ← b64charVal c2
      pure [v1 * 4 + v2 / 16]
    else if c4 = 61 ∧ rest = [] then do
      let v1 ← b64charVal c1
      let v2 ← b64charVal c2
      let v3 ← b64charVal c3
      pure [v1 * 4 + v2 / 16, v2 % 16 * 16 + v3 / 4]
    else do
      let v1 ← b64charVal c1
      let v2 ← b64charVal c2
      let v3 ← b64charVal c3
      let v4 ← b64charVal c4
      let tail ← b64quads rest
      pure ([v1 * 4 + v2 / 16, v2 % 16 * 16 + v3 / 4, v3 % 4 * 64 + v4] ++ tail)
  | _ => none

/-- Modelled from the spec: `base64.StdEncoding.DecodeString`, which skips
CR and LF bytes anywhere in its input before decoding quads. -/
def b64decodeGo (s : Bytes) : Option Bytes :=
  b64quads (s.filter (fun c => c ≠ 13 && c ≠ 10))

/-- Upper-case hexadecimal digit byte of a value below 16. -/
def upperHexDigit (n : Nat) : Nat := if n < 10 then 48 + n else 55 + n

/-- Modelled from the spec: the `=XX` escape of the external standard
quoted-printable encoder. -/
def qpEscape (b : Nat) : Bytes := [61, upperHexDigit (b / 16), upperHexDigit (b % 16)]

/-- Modelled from the spec: the external standard quoted-printable encoder
(`mime/quotedprintable.Writer`): printable bytes other than `=` are kept,
space and tab are kept except before a line break, `\n` becomes a CRLF
line break, everything else becomes `=XX`; lines longer than 75 characters
get an `=` soft break. -/
def qpEncodeRaw : Bytes → Nat → Bytes
  | [], _ => []
  | 13 :: 10 :: rest, _ => [13, 10] ++ qpEncodeRaw rest 0
  | 10 :: rest, _ => [13, 10] ++ qpEncodeRaw rest 0
  | b :: rest, ll =>
    let atEol := rest = [] ∨ rest.head? = some 10 ∨ rest.head? = some 13
    let enc :=
      if 33 ≤ b && b ≤ 126 && b ≠ 61 then [b]
      else if (b = 32 || b = 9) && !atEol then [b]
      else qpEscape b
    if 75 < ll + enc.length then [61, 13, 10] ++ enc ++ qpEncodeRaw rest enc.length
    else enc ++ qpEncodeRaw rest (ll + enc.length)

/-- Hexadecimal digit value of a byte, or `none`. -/
def fromHexDigit (c : Nat) : Option Nat :=
  if 48 ≤ c && c ≤ 57 then some (c - 48)
  else if 65 ≤ c && c ≤ 70 then some (c - 55)
  else if 97 ≤ c && c ≤ 102 then some (c - 87)
  else none

/-- Modelled from the spec: the external standard quoted-printable decoder
(`mime/quotedprintable.Reader`): `=XX` escapes are decoded, `=` soft line
breaks are removed, anything else passes through; a bad escape is a decode
error. -/
def qpDecodeRaw : Bytes → Option Bytes
  | [] => some []
  | 61 :: rest =>
    match rest with
    | 13 :: 10 :: r2 => qpDecodeRaw r2
    | 10 :: r2 => qpDecodeRaw r2
    | h1 :: h2 :: r2 => do
      let a ← fromHexDigit h1
      let b ← fromHexDigit h2
      let tail ← qpDecodeRaw r2
      pure ((16 * a + b) :: tail)
    | _ => none
  | c :: rest => (qpDecodeRaw rest).map (c :: ·)

/-- Loop of utils.go `StringBreakLines` (lines 80-109): emit chunks of
`charsNo` bytes joined by the separator. -/
def breakLoop : Nat → Bytes → Nat → Bytes → Bytes
  | 0, data, _, _ => data
  | fuel+1, data, charsNo, sep =>
    if data.length ≤ charsNo then data
    else data.take charsNo ++ sep ++ breakLoop fuel (data.drop charsNo) charsNo sep

/-- utils.go `ByteBreakLines` / `StringBreakLines` (lines 73-109). -/
def byteBreakLines (data : Bytes) (charsNo : Nat) (sep : Bytes) : Bytes :=
  breakLoop (data.length + 1) data charsNo sep

/-- utils.go `EncodeByContentEncoding` (lines 17-32).  Note the
quoted-printable branch: Go builds `bytes.NewBuffer(body)` — a buffer whose
initial contents are the raw body — and then appends the encoded bytes to
it, so the result is the raw body followed by its encoding. -/
def encodeByContentEncoding (body : Bytes) (encoding : Bytes) : Bytes :=
  if encoding = bs ("base64") then byteBreakLines (b64encode body) 76 (bs ("\n"))
  else if encoding = bs ("quoted-printable") then body ++ qpEncodeRaw body 0
  else body

/-- utils.go `DecodeByContentEncoding` (lines 38-56): base64 trims
surrounding CR/LF/tab bytes then decodes; quoted-printable decodes; any
other encoding passes through with `wasTransformed = false`.  A decode
error is `none` (the Go error value itself is never inspected by the
callers in scope). -/
def decodeByContentEncoding (body : Bytes) (encoding : Bytes) :
    Option (Bytes × Bool) :=
  if encoding = bs ("base64") then
    (b64decodeGo (trimCutset body [13, 10, 9])).map (fun d => (d, true))
  else if encoding = bs ("quoted-printable") then
    (qpDecodeRaw body).map (fun d => (d, true))
  else some (body, false)

example : encodeByContentEncoding (bs ("a")) (bs ("quoted-printable")) = bs ("aa") := by decide

example : encodeByContentEncoding (bs ("hi")) (bs ("base64")) = bs ("aGk=") := by decide

example :
    decodeByContentEncoding (bs ("aGk=")) (bs ("base64")) = some (bs ("hi"), true) := by
  decide

/-! ## Decomposer (decomposer.go) -/

/-- Generic split of a byte sequence at every occurrence of a byte. -/
def splitOnByte (b : Nat) : Bytes → List Bytes
  | [] => [[]]
  | c :: cs =>
    if c = b then [] :: splitOnByte b cs
    else match splitOnByte b cs with
      | l :: rest => (c :: l) :: rest
      | [] => [[c]]

/-- Modelled from the spec: the external media-type parser
(`mime.ParseMediaType`, spec section 6) as used by decomposer.go
`ExtractBoundary` (lines 83-89), which only consumes the `boundary`
parameter and swallows parse errors: parameters follow the base type after
semicolons; a `boundary=value` parameter (value optionally quoted) yields
the boundary, otherwise the result is the empty string. -/
def parseMediaTypeBoundary (ct : Bytes) : Bytes :=
  match splitOnByte 59 ct with
  | [] => []
  | _ :: params =>
    let rec firstBoundary : List Bytes → Bytes
      | [] => []
      | seg :: rest =>
        let t := trim seg
        if toLowerB (t.take 9) = bs ("boundary=") then
          let v := t.drop 9
          if v.head? = some 34 ∧ v.getLast? = some 34 ∧ 2 ≤ v.length then
            (v.drop 1).dropLast
          else v
        else firstBoundary rest
    firstBoundary params

example : parseMediaTypeBoundary (bs ("message/rfc822")) = [] := by decide

example :
    parseMediaTypeBoundary (bs ("multipart/mixed; boundary=\x22abc\x22")) = bs ("abc") := by
  decide

/-- One part as produced by the external multipart scanner: its parsed
header, its raw header bytes, and its body bytes. -/
structure Part where
  header : Header
  rawHeader : Bytes
  body : Bytes

/-- Modelled from the spec: the external multipart scanner contract
(`mailmultipart.Reader`, spec section 6).  Given body bytes and a boundary
it yields the parts in stream order, plus a flag telling whether the
stream ended with a non-EOF error after those parts (which must abort the
enclosing decomposition).  The decomposer is proved correct for every
scanner of this shape. -/
def Scanner : Type := Bytes → Bytes → List Part × Bool

/-- A scanner that always reports an empty part stream; used to evaluate
the decomposer on non-multipart inputs, where the scanner is never
consulted. -/
def noScanner : Scanner := fun _ _ => ([], false)

/-- The `Content-Type` prefix test of decomposer.go `ReadParts` (line 139):
`strings.HasPrefix(strings.Trim(ct, " \t"), "message/rfc822")`. -/
def isRfc822ContentType (ct : Bytes) : Bool :=
  (bs ("message/rfc822")).isPrefixOf (trimCutset ct [32, 9])

mutual

/-- decomposer.go `MessageDecomposer.Decompose` (lines 40-64): parse the
header with the raw-preserving reader (`ReadMessage`, lines 19-31), fail
on its error, otherwise build a fresh node with the parsed header,
`Idx = partIdx`, `rfc822Depth = 0`, capture header order and raw header
bytes from the reader's original-header bytes, and extract parts from the
remaining body bytes.  `none` is a failed decomposition. -/
def decompose (sc : Scanner) : Nat → Bytes → Bytes → Option Msg
  | 0, _, _ => none
  | fuel+1, rawMessage, partIdx =>
    let r := readMIMEHeader rawMessage
    match r.err with
    | some _ => none
    | none =>
      let m0 : Msg := { emptyMsg with header := r.m, idx := partIdx, rfc822Depth := 0 }
      let m1 := setOriginalHeaderOrder m0 r.oh
      readParts sc fuel m1 r.rest

/-- decomposer.go `MessageDecomposer.ReadParts` (lines 93-167).  With a
boundary: scan the body into parts, each part becoming a child node,
recursively part-extracted, with errors aborting the whole call.  Without
one: if the content type is `message/rfc822` and the depth check passes,
try to transfer-decode the body and decompose it as a nested message
(attached as `bodyMessage` with `rfc822Depth = parent + 1` and the codec's
`isDecoded` flag); any failure in that attempt falls back silently to
keeping the raw bytes as an opaque body. -/
def readParts (sc : Scanner) : Nat → Msg → Bytes → Option Msg
  | 0, _, _ => none
  | fuel+1, result, bodyBytes =>
    let boundary := parseMediaTypeBoundary (hdrGet result.header (bs ("Content-Type")))
    if boundary ≠ [] then
      let result1 := { result with boundary := boundary }
      let scr := sc bodyBytes boundary
      match processParts sc fuel result1.idx result1.rfc822Depth scr.1 1 with
      | none => none
      | some children =>
        if scr.2 then none
        else some { result1 with parts := result1.parts ++ children }
    else
      let rawPartBody := bodyBytes
      if isRfc822ContentType (hdrGet result.header (bs ("Content-Type")))
          ∧ result.rfc822Depth < 5 then
        match decodeByContentEncoding rawPartBody
            (hdrGet result.header (bs ("Content-Transfer-Encoding"))) with
        | none => some { result with body := rawPartBody }
        | some (decodedBody, isDec) =>
          match decompose sc fuel decodedBody (result.idx ++ bs ("-0")) with
          | none => some { result with body := rawPartBody }
          | some inner =>
            some { result with
                    bodyMessage := some { inner with rfc822Depth := result.rfc822Depth + 1 },
                    isDecoded := isDec }
      else some { result with body := rawPartBody }

/-- Part loop inside decomposer.go `ReadParts` (lines 101-130): each
scanner part becomes a fresh node carrying the part header, its raw header
bytes, the parent `rfc822Depth`, and the dotted index
`parentIdx + "-" + seq` (just `seq` when the parent index is empty), then
is recursively part-extracted. -/
def processParts (sc : Scanner) : Nat → Bytes → Nat → List Part → Nat → Option (List Msg)
  | 0, _, _, _, _ => none
  | _+1, _, _, [], _ => some []
  | fuel+1, parentIdx, parentDepth, p :: ps, seq =>
    let childIdx := (if parentIdx ≠ [] then parentIdx ++ bs ("-") else []) ++ bs (toString seq)
    let child : Msg :=
      { emptyMsg with
        header := p.header, rawOriginalHeader := p.rawHeader,
        idx := childIdx, rfc822Depth := parentDepth }
    match readParts sc fuel child p.body with
    | none => none
    | some child2 =>
      match processParts sc fuel parentIdx parentDepth ps (seq + 1) with
      | none => none
      | some rest => some (child2 :: rest)

end

example :
    (decompose noScanner 10 (bs ("A: 1\nB: 2\n\nbody")) []).map
        (fun t => (t.rawOriginalHeader, t.headerOrder, t.body)) =
      some (bs ("A: 1\nB: 2"), [bs ("A"), bs ("B")], bs ("body")) := by decide

example :
    (decompose noScanner 10
        (bs ("Content-Type: message/rfc822\n\nA: 1\n\ninner")) []).map
        (fun t => (t.body, t.bodyMessage.map (fun c => (c.body, c.rfc822Depth)))) =
      some ([], some (bs ("inner"), 1)) := by decide

/-! ## Builder (builder.go) -/

/-- `bytes.TrimRight(b, "\r\n")`: drop all trailing CR and LF bytes. -/
def trimRightCrLf (b : Bytes) : Bytes :=
  (b.reverse.dropWhile (fun c => c = 13 || c = 10)).reverse

/-- Header reconstruction path of builder.go `BuildHeader` (lines 72-105):
first the names of `HeaderOrder` still present in the map (joined by the
configured newline, remembering the canonical keys already emitted), then
the remaining map entries whose value is non-empty, in map order. -/
def buildHeaderRecon (nl : Bytes) (m : Msg) : Bytes :=
  let step1 := m.headerOrder.foldl
    (fun (acc : Bytes × List Bytes) headerCode =>
      if (hdrFind m.header (canonicalMIMEHeaderKey headerCode)).isSome then
        ((if acc.1 ≠ [] then acc.1 ++ nl else acc.1) ++
            headerCode ++ bs (": ") ++ hdrGet m.header headerCode,
          acc.2 ++ [canonicalMIMEHeaderKey headerCode])
      else acc)
    ([], [])
  m.header.foldl
    (fun buff e =>
      if step1.2.contains e.1 then buff
      else if hdrGet m.header e.1 = [] then buff
      else (if buff ≠ [] then buff ++ nl else buff) ++ e.1 ++ bs (": ") ++ hdrGet m.header e.1)
    step1.1

/-- builder.go `MessageBuilder.BuildHeader` (lines 66-106): when the raw
original header is present and the header is unchanged, emit it verbatim
with trailing CR/LF stripped; otherwise reconstruct from the map. -/
def buildHeader (nl : Bytes) (m : Msg) : Bytes :=
  if 0 < m.rawOriginalHeader.length ∧ ¬m.headerIsChanged then
    trimRightCrLf m.rawOriginalHeader
  else buildHeaderRecon nl m

/-- The two builder recursions: building one message (`Build`) and the part
loop inside `BuildBody`, indexed so that the whole builder is one
fuel-guided structural recursion. -/
inductive BCall where
  | one (nl rb : Bytes) (m : Msg)
  | many (nl rb bd : Bytes) (ps : List Msg) (first : Bool)

/-- builder.go `MessageBuilder.Build` (lines 36-59) and the part loop of
`BuildBody` (lines 128-137).  `rb` is the value the random boundary
generator (`RandomBoundary`, utils.go lines 62-69) would return, used when
a multipart message has no boundary set.  A `.one` call is header,
blank-line separator, then the body (re-encoded when `IsDecoded`); a
`.many` call emits, per part, a newline for every part after the first, the
`--boundary` line wrapped in newlines, and the recursively built part. -/
def buildF : Nat → BCall → Bytes
  | 0, _ => []
  | fuel+1, .one nl rb m =>
    let bodyCore :=
      (match m.bodyMessage with
       | some inner => buildF fuel (.one nl rb inner)
       | none => if 0 < m.body.length then m.body else []) ++
      (if 0 < m.parts.length then
        let bd := if m.boundary = [] then rb else m.boundary
        buildF fuel (.many nl rb bd m.parts true) ++
          nl ++ bs ("--") ++ bd ++ bs ("--") ++ nl
       else [])
    buildHeader nl m ++ nl ++ nl ++
      (if m.isDecoded then
        encodeByContentEncoding bodyCore (hdrGet m.header (bs ("Content-Transfer-Encoding")))
       else bodyCore)
  | fuel+1, .many nl rb bd ps first =>
    match ps with
    | [] => []
    | p :: rest =>
      (if first then [] else nl) ++ nl ++ bs ("--") ++ bd ++ nl ++
        buildF fuel (.one nl rb p) ++ buildF fuel (.many nl rb bd rest false)

/-- builder.go `MessageBuilder.Build`. -/
def build (fuel : Nat) (nl rb : Bytes) (m : Msg) : Bytes :=
  buildF fuel (.one nl rb m)

/-- builder.go `MessageBuilder.BuildBody` (lines 113-144): the nested
message or the plain body, then, for a multipart message, the boundary-
framed parts (`rb` replacing an unset boundary). -/
def buildBody (fuel : Nat) (nl rb : Bytes) (m : Msg) : Bytes :=
  (match m.bodyMessage with
   | some inner => buildF fuel (.one nl rb inner)
   | none => if 0 < m.body.length then m.body else []) ++
  (if 0 < m.parts.length then
    let bd := if m.boundary = [] then rb else m.boundary
    buildF fuel (.many nl rb bd m.parts true) ++
      nl ++ bs ("--") ++ bd ++ bs ("--") ++ nl
   else [])

/-- `Build` is the built header, the double-newline separator, and the
built body, re-encoded when the decomposer had decoded it. -/
theorem build_succ (fuel : Nat) (nl rb : Bytes) (m : Msg) :
    build (fuel+1) nl rb m =
      buildHeader nl m ++ nl ++ nl ++
        (if m.isDecoded then
          encodeByContentEncoding (buildBody fuel nl rb m)
            (hdrGet m.header (bs ("Content-Transfer-Encoding")))
         else buildBody fuel nl rb m) := rfl

/-- `strings.Index(s, sub)`: first index of a substring, if any. -/
def indexOfSub (sub : Bytes) : Bytes → Option Nat
  | [] => if sub = [] then some 0 else none
  | c :: rest =>
    if sub.isPrefixOf (c :: rest) then some 0
    else (indexOfSub sub rest).map (· + 1)

/-- The excision loop of builder.go `SetHeaderField` (lines 163-178):
advance `remainingPart` past the newline ending the located field and past
any continuation lines (lines starting with space or tab); a newline that
is the last byte, or the absence of a newline, breaks the loop. -/
def excLoop : Nat → Bytes → Bytes
  | 0, remaining => remaining
  | fuel+1, remaining =>
    match remaining.findIdx? (fun c => c = 10) with
    | some i =>
      if remaining.length - 1 < i + 1 then remaining
      else
        let r2 := remaining.drop (i + 1)
        if r2.head? = some 32 ∨ r2.head? = some 9 then excLoop fuel r2 else r2
    | none => remaining

/-- builder.go `MessageBuilder.SetHeaderField` (lines 146-189): set the
field in the header map, and when a raw original header exists, excise the
first case-insensitive occurrence of the field name (through its
continuation lines) and splice `newline + "field: value"` after the
retained trimmed prefix, followed by the text after the excised run. -/
def setHeaderField (nl : Bytes) (m : Msg) (field value : Bytes) : Msg :=
  let hdr := hdrSet m.header field value
  if 0 < m.rawOriginalHeader.length then
    let originalHeader := trimRightCrLf m.rawOriginalHeader
    let fr :=
      match indexOfSub (toLowerB field) (toLowerB originalHeader) with
      | some idx =>
        (originalHeader.take idx, excLoop (originalHeader.length + 1) (originalHeader.drop idx))
      | none => (originalHeader, [])
    { m with header := hdr,
             rawOriginalHeader :=
               trimRightCrLf fr.1 ++ nl ++ field ++ bs (": ") ++ value ++ fr.2 }
  else { m with header := hdr }

example :
    (decompose noScanner 10 (bs ("A: 1\nB: 2\n\nbody")) []).map (build 3 (bs ("\n")) []) =
      some (bs ("A: 1\nB: 2\n\nbody")) := by decide

example :
    build 3 (bs ("\n")) []
        { emptyMsg with
          header := [(bs ("A"), [bs ("1")])], headerOrder := [bs ("A")],
          body := bs ("x") } = bs ("A: 1\n\nx") := by decide

/-! ## Claim C2: the rfc822 nesting depth bound -/

/-- Follow `bodyMessage` links `n` levels down from a node. -/
def bmIter : Nat → Msg → Option Msg
  | 0, m => some m
  | n+1, m =>
    match m.bodyMessage with
    | some c => bmIter n c
    | none => none

/-- A chain of `n` nested `message/rfc822` wrappers around a plain inner
message (`n + 1` messages in total). -/
def rfc822Chain : Nat → Bytes
  | 0 => bs ("A: x\n\nend")
  | n+1 => bs ("Content-Type: message/rfc822\n\n") ++ rfc822Chain n

/-- Claim C2 (code bug): on a chain of six nested `message/rfc822`
messages around a seventh plain one, the decomposer unwraps *all six*
levels into `bodyMessage` — `bmIter 6` reaches the innermost plain message
— although the spec (and the code's own comment, decomposer.go lines
140-143) demand that unwrapping stop after five levels, leaving the sixth
`message/rfc822` body opaque.  The cause: every nested `Decompose` resets
`rfc822Depth` to 0 before its own `ReadParts` runs the `rfc822Depth < 5`
check, so the guard never fires; the third conjunct shows the stale depth
value 1 on the third-level node, where the spec expects 2. -/
theorem c2_depth_bound_codebug :
    (((decompose noScanner 40 (rfc822Chain 6) []).bind (bmIter 6)).map
        (fun t => t.body) = some (bs ("end"))) ∧
    (((decompose noScanner 40 (rfc822Chain 6) []).bind (bmIter 5)).map
        (fun t => t.bodyMessage.isSome) = some true) ∧
    (((decompose noScanner 40 (rfc822Chain 6) []).bind (bmIter 2)).map
        (fun t => t.rfc822Depth) = some 1) := by
  refine ⟨by decide, by decide, by decide⟩

/-! ## Claim C3: the surgical header-field rewrite -/

/-- The message of claim C3: header map with `A: 1` and `B: 2` and the raw
original header bytes given by the claim. -/
def c3msg : Msg :=
  { emptyMsg with
    header := [(bs ("A"), [bs ("1")]), (bs ("B"), [bs ("2")])],
    rawOriginalHeader := bs ("A: 1\r\nB: 2\r\n") }

/-- Advance to the start of the next non-continuation line: skip past the
first newline and past every following line starting with space or tab
(empty when the text runs out).  Helper for the documented excision rule. -/
def specNextNonCont : Nat → Bytes → Bytes
  | 0, _ => []
  | fuel+1, r =>
    match r.findIdx? (fun c => c = 10) with
    | none => []
    | some i =>
      let r2 := r.drop (i + 1)
      if r2.head? = some 32 ∨ r2.head? = some 9 then specNextNonCont fuel r2 else r2

/-- Modelled from the spec (section 4.3, `set_header_field`): the
documented excision rule over the raw header text — locate the first
case-insensitive occurrence of the field name, excise from there up to the
start of the next non-continuation line, then the retained prefix, the new
pair with the configured line terminator, and the remaining raw text. -/
def specExcision (nl raw field value : Bytes) : Bytes :=
  match indexOfSub (toLowerB field) (toLowerB raw) with
  | none => raw ++ nl ++ field ++ bs (": ") ++ value
  | some i =>
    raw.take i ++ nl ++ field ++ bs (": ") ++ value ++
      specNextNonCont (raw.length + 1) (raw.drop i)

/-- Claim C3: `SetHeaderField(msg, "A", "9")` on the given message yields
the header map with exactly `A: 9` and `B: 2`, and patches the raw header
to exactly the bytes of the documented excision rule applied to the raw
header text (after the trailing-terminator trim the code performs): with
terminator CRLF those bytes are `"\r\nA: 9B: 2"` — the retained prefix is
empty, the terminator precedes the inserted pair, and the remaining text
`"B: 2"` follows it directly (not the `"B: 2\r\nA: 9"` ordering). -/
theorem c3_set_header_field :
    (setHeaderField (bs ("\r\n")) c3msg (bs ("A")) (bs ("9"))).header =
        [(bs ("A"), [bs ("9")]), (bs ("B"), [bs ("2")])] ∧
    hdrGet (setHeaderField (bs ("\r\n")) c3msg (bs ("A")) (bs ("9"))).header (bs ("A")) =
        bs ("9") ∧
    hdrGet (setHeaderField (bs ("\r\n")) c3msg (bs ("A")) (bs ("9"))).header (bs ("B")) =
        bs ("2") ∧
    (setHeaderField (bs ("\r\n")) c3msg (bs ("A")) (bs ("9"))).rawOriginalHeader =
        specExcision (bs ("\r\n")) (bs ("A: 1\r\nB: 2")) (bs ("A")) (bs ("9")) ∧
    (setHeaderField (bs ("\r\n")) c3msg (bs ("A")) (bs ("9"))).rawOriginalHeader =
        bs ("\r\nA: 9B: 2") := by
  refine ⟨by decide, by decide, by decide, by decide, by decide⟩

/-! ## Claim C7: transfer-encoding round trip -/

/-- Claim C7 (code bug): the quoted-printable half of the encoding
round-trip fails.  `EncodeByContentEncoding` initializes its output buffer
with the raw body (`bytes.NewBuffer(body)`) before writing the encoded
body into it, so encoding the one-byte body `"a"` yields `"aa"`, and
decoding that returns `"aa"`, not `"a"`. -/
theorem c7_qp_roundtrip_codebug :
    encodeByContentEncoding (bs ("a")) (bs ("quoted-printable")) = bs ("aa") ∧
    decodeByContentEncoding
        (encodeByContentEncoding (bs ("a")) (bs ("quoted-printable")))
        (bs ("quoted-printable")) = some (bs ("aa"), true) ∧
    bs ("aa") ≠ bs ("a") := by
  refine ⟨by decide, by decide, by decide⟩

/-! ## Claim C4: multipart boundary lines -/

/-- Lines of a byte sequence, split at every LF. -/
def linesOf (s : Bytes) : List Bytes := splitOnByte 10 s

/-- A three-part multipart message with boundary `"abc"` and one-byte part
bodies. -/
def c4msg : Msg :=
  { emptyMsg with
    boundary := bs ("abc"),
    parts := [{ emptyMsg with body := bs ("x") },
              { emptyMsg with body := bs ("y") },
              { emptyMsg with body := bs ("z") }] }

/-- Claim C4 counterexample: the built body of a 3-part multipart message
with boundary `"abc"` contains exactly **three** `--abc` delimiter lines —
`BuildBody` writes one before every part, including the first — and one
final `--abc--` line; the claimed count of two is wrong. -/
theorem c4_counterexample :
    (linesOf (buildBody 4 (bs ("\n")) [] c4msg)).count (bs ("--abc")) = 3 ∧
    (linesOf (buildBody 4 (bs ("\n")) [] c4msg)).count (bs ("--abc--")) = 1 ∧
    (3 : Nat) ≠ 2 := by
  refine ⟨by decide, by decide, by decide⟩

/-! ## Claims C1/C5/C6 counterexamples: CRLF input -/

/-- Claim C1 counterexample: for `B = "A: 1\r\nB: 2\r\n\r\nbody"`, which
decomposes without error and is not mutated, the built header is
`"A: 1\nB: 2"` — the interior CRLF line terminator was rewritten to LF —
so the rebuilt bytes differ from `B` beyond the header/body separator and
trailing terminators: exact header byte equality fails. -/
theorem c1_counterexample :
    (decompose noScanner 20 (bs ("A: 1\r\nB: 2\r\n\r\nbody")) []).map
        (fun t => (buildHeader (bs ("\r\n")) t, t.body)) =
      some (bs ("A: 1\nB: 2"), bs ("body")) ∧
    bs ("A: 1\nB: 2") ≠ bs ("A: 1\r\nB: 2") := by
  refine ⟨by decide, by decide⟩

/-- Claim C5 counterexample: for the same CRLF input the stored
`rawOriginalHeader` is `"A: 1\nB: 2"`, not the exact header-block bytes
`"A: 1\r\nB: 2"` (trailing terminator trimmed): the CR bytes of interior
line terminators are not preserved. -/
theorem c5_counterexample :
    (decompose noScanner 20 (bs ("A: 1\r\nB: 2\r\n\r\nbody")) []).map
        (fun t => t.rawOriginalHeader) = some (bs ("A: 1\nB: 2")) ∧
    bs ("A: 1\nB: 2") ≠ bs ("A: 1\r\nB: 2") := by
  refine ⟨by decide, by decide⟩

/-- Modelled from the spec (claim C6): the literal top-level field-name
sequence of a raw message's header block — physical lines with their `\n`
or `\r\n` terminator stripped, up to the first blank line; for each line
not starting with space or tab, the text before the first colon. -/
def specLiteralNames (b : Bytes) : List Bytes :=
  ((((splitOnByte 10 b).map dropCr).takeWhile (fun l => l ≠ [])).filter
    (fun l => ¬(l.head? = some 32 ∨ l.head? = some 9))).map beforeColon

/-- Claim C6 counterexample: the input `"A\r\r\n :x\n\nbody"` decomposes
without error (the folded logical line `"A\r :x"` has a colon), but
`headerOrder` records `"A"`: the raw header line `"A\r"` goes through a
second `bufio.ReadLine` pass in `SetOriginalHeaderOrder` which strips the
byte pair `"\r\n"` again, while the literal text before the first colon on
that top-level line of `B` is `"A\r"`. -/
theorem c6_counterexample :
    (decompose noScanner 20 (bs ("A\r\r\n :x\n\nbody")) []).map
        (fun t => t.headerOrder) = some [bs ("A")] ∧
    specLiteralNames (bs ("A\r\r\n :x\n\nbody")) = [bs ("A\r")] ∧
    ([bs ("A")] : List Bytes) ≠ [bs ("A\r")] := by
  refine ⟨by decide, by decide, by decide⟩

/-! ## Machinery for the amended C1/C5/C6 statements: headers whose
physical lines are LF-terminated, non-empty, and free of stray CR -/

/-- The byte sequence with the given lines, each terminated by LF. -/
def unlines (ls : List Bytes) : Bytes := (ls.map (fun l => l ++ [10])).flatten

/-- The raw-header accumulation of `SetOriginalHeaderOrder` run over a
list of lines, starting from the given prior raw bytes. -/
def joinRaw : Bytes → List Bytes → Bytes
  | raw, [] => raw
  | raw, l :: ls => joinRaw ((if raw ≠ [] then raw ++ [10] else raw) ++ l) ls

/-- The header-order accumulation of `SetOriginalHeaderOrder` over a list
of lines: the before-colon text of every line whose before-colon text does
not start with space or tab. -/
def orderAdds : List Bytes → List Bytes
  | [] => []
  | l :: ls =>
    if (beforeColon l).head? = some 32 ∨ (beforeColon l).head? = some 9 then orderAdds ls
    else beforeColon l :: orderAdds ls

/-- A well-formed LF header-line list: every line is non-empty, contains
no LF, and does not end in CR. -/
abbrev OhWF (ls : List Bytes) : Prop :=
  ∀ l ∈ ls, l ≠ [] ∧ ¬(10 ∈ l) ∧ l.getLast? ≠ some 13

theorem unlines_cons (l : Bytes) (ls : List Bytes) :
    unlines (l :: ls) = l ++ 10 :: unlines ls := by
  simp [unlines]

theorem splitAtNl_append (l rest : Bytes) (h : ¬(10 ∈ l)) :
    splitAtNl (l ++ 10 :: rest) = some (l, rest) := by
  induction l with
  | nil => simp [splitAtNl]
  | cons c cs ih =>
    have hc : c ≠ 10 := by intro hc; exact h (by simp [hc])
    have hcs : ¬(10 ∈ cs) := by intro hm; exact h (by simp [hm])
    simp [splitAtNl, hc, ih hcs]

theorem dropCr_eq (l : Bytes) (h : l.getLast? ≠ some 13) : dropCr l = l := by
  simp [dropCr, h]

theorem readLine_line (l rest : Bytes) (h10 : ¬(10 ∈ l)) (hcr : l.getLast? ≠ some 13) :
    readLine (l ++ 10 :: rest) = some (l, rest) := by
  cases l with
  | nil => simp [readLine, splitAtNl, dropCr]
  | cons c cs =>
    have hs : splitAtNl (c :: (cs ++ 10 :: rest)) = some (c :: cs, rest) := by
      simpa using splitAtNl_append (c :: cs) rest h10
    simp [readLine, hs, dropCr_eq _ hcr]

theorem sohoLoop_unlines (ls : List Bytes) :
    ∀ (fuel : Nat) (order : List Bytes) (raw : Bytes), OhWF ls →
      (unlines ls).length < fuel →
      sohoLoop fuel order raw (unlines ls) = (order ++ orderAdds ls, joinRaw raw ls) := by
  induction ls with
  | nil =>
    intro fuel order raw _ hf
    cases fuel with
    | zero => omega
    | succ f => simp [unlines, sohoLoop, readLine, orderAdds, joinRaw]
  | cons l ls ih =>
    intro fuel order raw hwf hf
    obtain ⟨hl, h10, hcr⟩ := hwf l (by simp)
    have hwf' : OhWF ls := fun x hx => hwf x (by simp [hx])
    cases fuel with
    | zero => omega
    | succ f =>
      rw [unlines_cons] at hf ⊢
      have hlen : (unlines ls).length < f := by
        simp [List.length_append] at hf
        omega
      simp only [sohoLoop, readLine_line l (unlines ls) h10 hcr, hl]
      rw [if_pos (by exact hl)]
      rw [ih f _ _ hwf' hlen]
      simp only [Prod.mk.injEq]
      refine ⟨?_, ?_⟩
      · by_cases hc : (beforeColon l).head? = some 32 ∨ (beforeColon l).head? = some 9
        · simp [orderAdds, hc]
        · simp [orderAdds, hc]
      · simp [joinRaw]

theorem setOriginalHeaderOrder_unlines (m : Msg) (ls : List Bytes) (hwf : OhWF ls) :
    setOriginalHeaderOrder m (unlines ls) =
      { m with headerOrder := orderAdds ls,
               rawOriginalHeader := joinRaw m.rawOriginalHeader ls } := by
  have h := sohoLoop_unlines ls ((unlines ls).length + 1) [] m.rawOriginalHeader hwf
    (by omega)
  simp [setOriginalHeaderOrder, h]

theorem joinRaw_ne_nil (ls : List Bytes) :
    ∀ raw : Bytes, raw ≠ [] → joinRaw raw ls ≠ [] := by
  induction ls with
  | nil => intro raw h; simpa [joinRaw] using h
  | cons l ls ih =>
    intro raw h
    simp only [joinRaw, if_pos h]
    exact ih _ (by simp)

theorem joinRaw_nil_cons (l : Bytes) (ls : List Bytes) :
    joinRaw [] (l :: ls) = joinRaw l ls := by
  simp [joinRaw]

theorem joinRaw_append_nl (ls : List Bytes) :
    ∀ raw : Bytes, ls ≠ [] → (∀ l ∈ ls, l ≠ []) → raw ≠ [] →
      joinRaw raw ls ++ [10] = raw ++ [10] ++ unlines ls := by
  induction ls with
  | nil => intro raw h; exact absurd rfl h
  | cons l ls ih =>
    intro raw _ hne hraw
    cases ls with
    | nil =>
      simp [joinRaw, if_pos hraw, unlines]
    | cons l2 ls2 =>
      have hl : l ≠ [] := hne l (by simp)
      have step : joinRaw raw (l :: l2 :: ls2) = joinRaw (raw ++ [10] ++ l) (l2 :: ls2) := by
        simp [joinRaw, if_pos hraw]
      rw [step, ih (raw ++ [10] ++ l) (by simp) (fun x hx => hne x (by simp [hx]))
        (by simp [hl]), unlines_cons]
      simp [unlines_cons]

theorem joinRaw_nil_append_nl (ls : List Bytes) (hne : ls ≠ [])
    (h : ∀ l ∈ ls, l ≠ []) : joinRaw [] ls ++ [10] = unlines ls := by
  cases ls with
  | nil => exact absurd rfl hne
  | cons l ls =>
    have hl : l ≠ [] := h l (by simp)
    cases ls with
    | nil => simp [joinRaw_nil_cons, joinRaw, unlines]
    | cons l2 ls2 =>
      rw [joinRaw_nil_cons,
        joinRaw_append_nl (l2 :: ls2) l (by simp) (fun x hx => h x (by simp [hx])) hl,
        unlines_cons]
      simp [unlines_cons]

theorem trimRightCrLf_concat (x : Bytes) (c : Nat) (h13 : c ≠ 13) (h10 : c ≠ 10) :
    trimRightCrLf (x ++ [c]) = x ++ [c] := by
  simp [trimRightCrLf, List.dropWhile_cons, h13, h10]

theorem trimRightCrLf_append_line (y l : Bytes) (hl : l ≠ [])
    (h10 : ¬(10 ∈ l)) (hcr : l.getLast? ≠ some 13) :
    trimRightCrLf (y ++ l) = y ++ l := by
  have hc : l.getLast? = some (l.getLast hl) := List.getLast?_eq_getLast_of_ne_nil hl
  have hcm : l.getLast hl ∈ l := List.getLast_mem hl
  have hc10 : l.getLast hl ≠ 10 := fun h => h10 (h ▸ hcm)
  have hc13 : l.getLast hl ≠ 13 := fun h => hcr (by rw [hc, h])
  have hsplit : l.dropLast ++ [l.getLast hl] = l := List.dropLast_append_getLast hl
  calc trimRightCrLf (y ++ l) = trimRightCrLf ((y ++ l.dropLast) ++ [l.getLast hl]) := by
        rw [List.append_assoc, hsplit]
    _ = (y ++ l.dropLast) ++ [l.getLast hl] := trimRightCrLf_concat _ _ hc13 hc10
    _ = y ++ l := by rw [List.append_assoc, hsplit]

theorem trimRightCrLf_joinRaw (ls : List Bytes) :
    ∀ raw : Bytes, OhWF ls → trimRightCrLf raw = raw →
      trimRightCrLf (joinRaw raw ls) = joinRaw raw ls := by
  induction ls with
  | nil => intro raw _ hr; simpa [joinRaw] using hr
  | cons l ls ih =>
    intro raw hwf hr
    obtain ⟨hl, h10, hcr⟩ := hwf l (by simp)
    have hwf' : OhWF ls := fun x hx => hwf x (by simp [hx])
    simp only [joinRaw]
    exact ih _ hwf' (trimRightCrLf_append_line _ l hl h10 hcr)

/-- `bs "\n"` is the LF byte. -/
theorem bs_nl : bs ("\n") = [10] := rfl

/-- Part extraction without a boundary, a non-rfc822 content type: the
whole remaining body is kept as the opaque `body` and nothing else
changes. -/
theorem readParts_plain (sc : Scanner) (f : Nat) (m : Msg) (b : Bytes)
    (hb : parseMediaTypeBoundary (hdrGet m.header (bs ("Content-Type"))) = [])
    (hr : isRfc822ContentType (hdrGet m.header (bs ("Content-Type"))) = false) :
    readParts sc (f+1) m b = some { m with body := b } := by
  simp [readParts, hb, hr]

/-- Successful part extraction never changes the header, raw original
header, header order, header-changed flag, index, or depth of the node it
was called on. -/
theorem readParts_frame (sc : Scanner) (fuel : Nat) (m t : Msg) (b : Bytes)
    (h : readParts sc fuel m b = some t) :
    t.header = m.header ∧ t.rawOriginalHeader = m.rawOriginalHeader ∧
      t.headerOrder = m.headerOrder ∧ t.headerIsChanged = m.headerIsChanged ∧
      t.idx = m.idx ∧ t.rfc822Depth = m.rfc822Depth := by
  cases fuel with
  | zero => simp [readParts] at h
  | succ f =>
    simp only [readParts] at h
    repeat' split at h
    all_goals
      first
        | exact Option.noConfusion h
        | (injection h with h2; cases h2; simp)

/-- Statement-side check for the amended C1: the byte sequence is a
non-empty list of LF-terminated physical lines, each non-empty, LF-free,
and not ending in CR (the lines are `(splitOnByte 10 oh).dropLast`). -/
def lfBlock (oh : Bytes) : Bool :=
  decide (unlines ((splitOnByte 10 oh).dropLast) = oh) &&
    decide ((splitOnByte 10 oh).dropLast ≠ []) &&
    (splitOnByte 10 oh).dropLast.all
      (fun l => decide (l ≠ []) && decide (¬(10 ∈ l)) && decide (l.getLast? ≠ some 13))

theorem lfBlock_spec (oh : Bytes) (h : lfBlock oh = true) :
    unlines ((splitOnByte 10 oh).dropLast) = oh ∧
      (splitOnByte 10 oh).dropLast ≠ [] ∧ OhWF ((splitOnByte 10 oh).dropLast) := by
  simp only [lfBlock, Bool.and_eq_true, decide_eq_true_eq, List.all_eq_true] at h
  obtain ⟨⟨h1, h2⟩, h3⟩ := h
  refine ⟨h1, h2, fun l hl => ?_⟩
  have hline := h3 l hl
  simp only [Bool.and_eq_true, decide_eq_true_eq] at hline
  exact ⟨hline.1.1, hline.1.2, hline.2⟩

/-- Statement-side condition for the amended C1, mirroring the decomposer:
at every level the header block uses bare-LF terminators, the
`Content-Type` carries no boundary parameter (the non-multipart path), the
input splits as header block, blank line, body, and a successfully
unwrapped `message/rfc822` nesting was pass-through transfer-decoded (no
base64/quoted-printable transform), recursively. -/
def lfOK (sc : Scanner) : Nat → Bytes → Bytes → Bool
  | 0, _, _ => false
  | 1, _, _ => false
  | fuel+2, B, idx =>
    lfBlock (readMIMEHeader B).oh &&
    decide (B = (readMIMEHeader B).oh ++ 10 :: (readMIMEHeader B).rest) &&
    decide (parseMediaTypeBoundary (hdrGet (readMIMEHeader B).m (bs ("Content-Type"))) = []) &&
    (if isRfc822ContentType (hdrGet (readMIMEHeader B).m (bs ("Content-Type"))) then
      (decodeByContentEncoding (readMIMEHeader B).rest
          (hdrGet (readMIMEHeader B).m (bs ("Content-Transfer-Encoding")))).elim true
        (fun pr =>
          (decompose sc fuel pr.1 (idx ++ bs ("-0"))).elim true
            (fun _ => !pr.2 && lfOK sc fuel pr.1 (idx ++ bs ("-0"))))
    else true)

/-- A successful header parse turns `Decompose` into `ReadParts` on a
fresh node carrying the parsed header, the joined raw header lines and
the captured order. -/
theorem decompose_succ_eq (sc : Scanner) (fuel : Nat) (B idx : Bytes) (ls : List Bytes)
    (herr : (readMIMEHeader B).err = none)
    (hoh : (readMIMEHeader B).oh = unlines ls)
    (hwf : OhWF ls) :
    decompose sc (fuel+1) B idx =
      readParts sc fuel
        { header := (readMIMEHeader B).m, headerIsChanged := false,
          rawOriginalHeader := joinRaw [] ls, headerOrder := orderAdds ls,
          body := [], parts := [], bodyMessage := none, boundary := [],
          idx := idx, isDecoded := false, rfc822Depth := 0 }
        (readMIMEHeader B).rest := by
  simp only [decompose, herr, hoh, setOriginalHeaderOrder_unlines _ _ hwf]
  rfl

/-- Part extraction, rfc822 content type, transfer decoding fails: the
raw body is kept opaque. -/
theorem readParts_rfc822_nodecode (sc : Scanner) (f : Nat) (m : Msg) (b : Bytes)
    (hb : parseMediaTypeBoundary (hdrGet m.header (bs ("Content-Type"))) = [])
    (hr : isRfc822ContentType (hdrGet m.header (bs ("Content-Type"))) = true)
    (hd : m.rfc822Depth < 5)
    (hdc : decodeByContentEncoding b
        (hdrGet m.header (bs ("Content-Transfer-Encoding"))) = none) :
    readParts sc (f+1) m b = some { m with body := b } := by
  simp [readParts, hb, hr, hd, hdc]

/-- Part extraction, rfc822 content type, nested decomposition fails: the
raw body is kept opaque. -/
theorem readParts_rfc822_noparse (sc : Scanner) (f : Nat) (m : Msg) (b d : Bytes)
    (isDec : Bool)
    (hb : parseMediaTypeBoundary (hdrGet m.header (bs ("Content-Type"))) = [])
    (hr : isRfc822ContentType (hdrGet m.header (bs ("Content-Type"))) = true)
    (hd : m.rfc822Depth < 5)
    (hdc : decodeByContentEncoding b
        (hdrGet m.header (bs ("Content-Transfer-Encoding"))) = some (d, isDec))
    (hdci : decompose sc f d (m.idx ++ bs ("-0")) = none) :
    readParts sc (f+1) m b = some { m with body := b } := by
  simp [readParts, hb, hr, hd, hdc, hdci]

/-- Part extraction, rfc822 content type, nested decomposition succeeds:
the nested message is attached with depth parent + 1 and the codec flag. -/
theorem readParts_rfc822_nested (sc : Scanner) (f : Nat) (m : Msg) (b d : Bytes)
    (isDec : Bool) (inner : Msg)
    (hb : parseMediaTypeBoundary (hdrGet m.header (bs ("Content-Type"))) = [])
    (hr : isRfc822ContentType (hdrGet m.header (bs ("Content-Type"))) = true)
    (hd : m.rfc822Depth < 5)
    (hdc : decodeByContentEncoding b
        (hdrGet m.header (bs ("Content-Transfer-Encoding"))) = some (d, isDec))
    (hdci : decompose sc f d (m.idx ++ bs ("-0")) = some inner) :
    readParts sc (f+1) m b =
      some { m with
              bodyMessage := some { inner with rfc822Depth := m.rfc822Depth + 1 },
              isDecoded := isDec } := by
  simp [readParts, hb, hr, hd, hdc, hdci]

/-- A pass-through transfer decode (`wasTransformed = false`) returns its
input unchanged. -/
theorem decode_passThrough (b e d : Bytes)
    (h : decodeByContentEncoding b e = some (d, false)) : d = b := by
  simp only [decodeByContentEncoding] at h
  by_cases h1 : e = bs ("base64")
  · rw [if_pos h1] at h
    obtain ⟨x, hx1, hx2⟩ := Option.map_eq_some'.mp h
    simp at hx2
  · rw [if_neg h1] at h
    by_cases h2 : e = bs ("quoted-printable")
    · rw [if_pos h2] at h
      obtain ⟨x, hx1, hx2⟩ := Option.map_eq_some'.mp h
      simp at hx2
    · rw [if_neg h2] at h
      simp only [Option.some.injEq, Prod.mk.injEq] at h
      exact h.1.symm

/-- The builder never reads `rfc822Depth`. -/
theorem buildF_one_depth (f : Nat) (nl rb : Bytes) (m : Msg) (k : Nat) :
    buildF f (.one nl rb { m with rfc822Depth := k }) = buildF f (.one nl rb m) := by
  cases f <;> rfl

/-- Building a node on the raw-header path with an opaque body. -/
theorem build_raw_flat (F : Nat) (nl rb : Bytes) (m : Msg)
    (hraw : m.rawOriginalHeader ≠ [])
    (hch : m.headerIsChanged = false)
    (htrim : trimRightCrLf m.rawOriginalHeader = m.rawOriginalHeader)
    (hparts : m.parts = [])
    (hbm : m.bodyMessage = none)
    (hdecf : m.isDecoded = false) :
    build (F+1) nl rb m = m.rawOriginalHeader ++ nl ++ nl ++ m.body := by
  have hcond : 0 < m.rawOriginalHeader.length ∧ ¬(m.headerIsChanged = true) := by
    refine ⟨List.length_pos.mpr hraw, ?_⟩
    rw [hch]
    simp
  simp only [build, buildF, hbm, hparts, hdecf, buildHeader]
  rw [if_pos hcond, htrim]
  cases hb : m.body with
  | nil => simp
  | cons c cs => simp

/-- Building a node on the raw-header path with a nested message. -/
theorem build_raw_nested (F : Nat) (nl rb : Bytes) (m inner : Msg)
    (hraw : m.rawOriginalHeader ≠ [])
    (hch : m.headerIsChanged = false)
    (htrim : trimRightCrLf m.rawOriginalHeader = m.rawOriginalHeader)
    (hparts : m.parts = [])
    (hbm : m.bodyMessage = some inner)
    (hdecf : m.isDecoded = false) :
    build (F+1) nl rb m = m.rawOriginalHeader ++ nl ++ nl ++
      buildF F (.one nl rb inner) := by
  have hcond : 0 < m.rawOriginalHeader.length ∧ ¬(m.headerIsChanged = true) := by
    refine ⟨List.length_pos.mpr hraw, ?_⟩
    rw [hch]
    simp
  simp only [build, buildF, hbm, hparts, hdecf, buildHeader]
  rw [if_pos hcond, htrim]
  simp

/-- The round trip over the non-multipart decomposition paths, by fuel
induction: the opaque-body fallbacks and every pass-through
`message/rfc822` nesting rebuild the input exactly. -/
theorem roundtrip_lf (sc : Scanner) :
    (fuel : Nat) → ∀ (B idx rb : Bytes) (t : Msg),
      decompose sc fuel B idx = some t → lfOK sc fuel B idx = true →
      ∀ g : Nat, build (fuel + g) (bs ("\n")) rb t = B
  | 0, _, _, _, _, _, hlf, _ => Bool.noConfusion hlf
  | 1, _, _, _, _, _, hlf, _ => Bool.noConfusion hlf
  | fuel+2, B, idx, rb, t, hdec, hlf, g => by
    cases herr : (readMIMEHeader B).err with
    | some e =>
      have h21 : fuel + 2 = fuel + 1 + 1 := rfl
      rw [h21] at hdec
      simp only [decompose, herr] at hdec
      exact Option.noConfusion hdec
    | none =>
      simp only [lfOK, Bool.and_eq_true, decide_eq_true_eq] at hlf
      obtain ⟨⟨⟨hblk, hBshape⟩, hnb⟩, hrfc⟩ := hlf
      obtain ⟨hoh, hne, hwfls⟩ := lfBlock_spec _ hblk
      obtain ⟨l0, ls', hcons⟩ : ∃ l0 ls',
          (splitOnByte 10 (readMIMEHeader B).oh).dropLast = l0 :: ls' := by
        cases hq : (splitOnByte 10 (readMIMEHeader B).oh).dropLast with
        | nil => exact absurd hq hne
        | cons a b => exact ⟨a, b, rfl⟩
      rw [hcons] at hoh hwfls
      have hl0 : l0 ≠ [] := (hwfls l0 (by simp)).1
      have hraw_ne : joinRaw ([] : Bytes) (l0 :: ls') ≠ [] := by
        rw [joinRaw_nil_cons]
        exact joinRaw_ne_nil ls' l0 hl0
      have htrimJ : trimRightCrLf (joinRaw ([] : Bytes) (l0 :: ls')) =
          joinRaw ([] : Bytes) (l0 :: ls') :=
        trimRightCrLf_joinRaw (l0 :: ls') [] hwfls (by simp [trimRightCrLf])
      have hjoin : joinRaw ([] : Bytes) (l0 :: ls') ++ [10] = unlines (l0 :: ls') :=
        joinRaw_nil_append_nl (l0 :: ls') (by simp) (fun x hx => (hwfls x hx).1)
      have hfinal : joinRaw ([] : Bytes) (l0 :: ls') ++ bs ("\n") ++ bs ("\n") ++
          (readMIMEHeader B).rest = B := by
        conv_rhs => rw [hBshape]
        rw [← hoh, ← hjoin]
        simp [bs_nl]
      have h21 : fuel + 2 = fuel + 1 + 1 := rfl
      rw [h21] at hdec
      rw [decompose_succ_eq sc (fuel+1) B idx (l0 :: ls') herr hoh.symm hwfls] at hdec
      have hF : fuel + 2 + g = fuel + 1 + g + 1 := by omega
      rw [hF]
      by_cases hrf : isRfc822ContentType
          (hdrGet (readMIMEHeader B).m (bs ("Content-Type"))) = true
      · rw [if_pos hrf] at hrfc
        cases hdc : decodeByContentEncoding (readMIMEHeader B).rest
            (hdrGet (readMIMEHeader B).m (bs ("Content-Transfer-Encoding"))) with
        | none =>
          rw [readParts_rfc822_nodecode sc fuel _ _ (by simpa using hnb)
            (by simpa using hrf) (by exact Nat.succ_pos 4) (by simpa using hdc)] at hdec
          injection hdec with ht
          subst ht
          rw [build_raw_flat (fuel+1+g) (bs ("\n")) rb _ (by exact hraw_ne) rfl
            (by exact htrimJ) rfl rfl rfl]
          exact hfinal
        | some pr =>
          obtain ⟨d, isDec⟩ := pr
          rw [hdc] at hrfc
          simp only [Option.elim] at hrfc
          cases hdci : decompose sc fuel d (idx ++ bs ("-0")) with
          | none =>
            rw [readParts_rfc822_noparse sc fuel _ _ d isDec (by simpa using hnb)
              (by simpa using hrf) (by exact Nat.succ_pos 4) (by simpa using hdc)
              (by simpa using hdci)] at hdec
            injection hdec with ht
            subst ht
            rw [build_raw_flat (fuel+1+g) (bs ("\n")) rb _ (by exact hraw_ne) rfl
              (by exact htrimJ) rfl rfl rfl]
            exact hfinal
          | some inner =>
            rw [hdci] at hrfc
            simp only [Option.elim, Bool.and_eq_true, Bool.not_eq_true'] at hrfc
            obtain ⟨hisdec, hlf2⟩ := hrfc
            subst hisdec
            rw [readParts_rfc822_nested sc fuel _ _ d false inner (by simpa using hnb)
              (by simpa using hrf) (by exact Nat.succ_pos 4) (by simpa using hdc)
              (by simpa using hdci)] at hdec
            injection hdec with ht
            subst ht
            rw [build_raw_nested (fuel+1+g) (bs ("\n")) rb _ _ (by exact hraw_ne) rfl
              (by exact htrimJ) rfl rfl rfl]
            rw [buildF_one_depth]
            have harith : fuel + 1 + g = fuel + (g + 1) := by omega
            rw [harith]
            have hbuild : build (fuel + (g+1)) (bs ("\n")) rb inner =
                (readMIMEHeader B).rest := by
              rw [roundtrip_lf sc fuel d (idx ++ bs ("-0")) rb inner hdci hlf2 (g+1)]
              exact decode_passThrough _ _ _ hdc
            rw [show buildF (fuel + (g+1)) (BCall.one (bs ("\n")) rb inner) =
              build (fuel + (g+1)) (bs ("\n")) rb inner from rfl, hbuild]
            exact hfinal
      · have hrf2 : isRfc822ContentType
            (hdrGet (readMIMEHeader B).m (bs ("Content-Type"))) = false := by
          simpa using hrf
        rw [readParts_plain sc fuel _ _ (by simpa using hnb) (by simpa using hrf2)] at hdec
        injection hdec with ht
        subst ht
        rw [build_raw_flat (fuel+1+g) (bs ("\n")) rb _ (by exact hraw_ne) rfl
          (by exact htrimJ) rfl rfl rfl]
        exact hfinal

/-- Claim C1, amended: for every scanner, every raw input that decomposes
without error along the non-multipart path (no `Content-Type` boundary
parameter at any level), whose header block at every level uses bare-LF
line terminators (non-empty physical lines not ending in CR), and whose
successfully unwrapped `message/rfc822` nestings were pass-through
transfer-decoded (no base64/quoted-printable transform), building the
unmutated tree with newline LF reproduces `B` byte for byte — including
rfc822-typed messages whose unwrap attempt failed and fell back to an
opaque body, and pass-through rfc822 nestings of any depth.  (For CRLF
input exactness fails beyond the separator — see the counterexample; a
transformed nesting is re-encoded by the builder, cf. the C7 bug.) -/
theorem c1_roundtrip_amended (sc : Scanner) (fuel : Nat) (B idx rb : Bytes) (t : Msg)
    (hdec : decompose sc fuel B idx = some t)
    (hlf : lfOK sc fuel B idx = true) (g : Nat) :
    build (fuel + g) (bs ("\n")) rb t = B :=
  roundtrip_lf sc fuel B idx rb t hdec hlf g

/-- Amended claim C5: for an LF-terminated header block (lines non-empty,
CR-free at line ends), `rawOriginalHeader` holds the exact header-block
bytes with the trailing line terminator trimmed — `raw ++ "\n"` is the
header block, and `B` is exactly `raw ++ "\n\n" ++ body`; and a message
not produced by decomposition carries an empty `rawOriginalHeader`.
(For CRLF input the CR bytes are rewritten — see the counterexample.) -/
theorem c5_raw_header_amended (sc : Scanner) (fuel : Nat) (B rest : Bytes)
    (ls : List Bytes) (t : Msg)
    (hdec : decompose sc fuel B [] = some t)
    (herr : (readMIMEHeader B).err = none)
    (hoh : (readMIMEHeader B).oh = unlines ls)
    (hrest : (readMIMEHeader B).rest = rest)
    (hB : B = unlines ls ++ 10 :: rest)
    (hne : ls ≠ [])
    (hwf : OhWF ls) :
    t.rawOriginalHeader ++ [10] = unlines ls ∧
      B = t.rawOriginalHeader ++ [10, 10] ++ rest ∧
      emptyMsg.rawOriginalHeader = [] := by
  cases fuel with
  | zero => simp [decompose] at hdec
  | succ f =>
    simp only [decompose] at hdec
    rw [herr, hoh, hrest] at hdec
    rw [setOriginalHeaderOrder_unlines _ _ hwf] at hdec
    have hfr := readParts_frame sc f _ t rest hdec
    have hraw : t.rawOriginalHeader = joinRaw ([] : Bytes) ls := hfr.2.1
    have hjoin : joinRaw ([] : Bytes) ls ++ [10] = unlines ls :=
      joinRaw_nil_append_nl ls hne (fun x hx => (hwf x hx).1)
    refine ⟨by rw [hraw]; exact hjoin, ?_, rfl⟩
    rw [hB, hraw, ← hjoin]
    simp

theorem splitOnByte_line (l y : Bytes) (h : ¬(10 ∈ l)) :
    splitOnByte 10 (l ++ 10 :: y) = l :: splitOnByte 10 y := by
  induction l with
  | nil => simp [splitOnByte]
  | cons c cs ih =>
    have hc : c ≠ 10 := fun hh => h (by simp [hh])
    have hcs : ¬(10 ∈ cs) := fun hh => h (by simp [hh])
    simp [splitOnByte, hc, ih hcs]

theorem splitOnByte_unlines (ls : List Bytes) (y : Bytes) (h : ∀ l ∈ ls, ¬(10 ∈ l)) :
    splitOnByte 10 (unlines ls ++ y) = ls ++ splitOnByte 10 y := by
  induction ls with
  | nil => simp [unlines]
  | cons l ls ih =>
    rw [unlines_cons]
    have hshape : l ++ 10 :: unlines ls ++ y = l ++ 10 :: (unlines ls ++ y) := by simp
    rw [hshape, splitOnByte_line l _ (h l (by simp)),
      ih (fun x hx => h x (by simp [hx]))]
    simp

theorem map_dropCr_id (ls : List Bytes) (h : ∀ l ∈ ls, l.getLast? ≠ some 13) :
    ls.map dropCr = ls := by
  induction ls with
  | nil => rfl
  | cons l ls ih =>
    simp only [List.map_cons, dropCr_eq l (h l (by simp)),
      ih (fun x hx => h x (by simp [hx]))]

theorem takeWhile_append_blank (ls y : List Bytes) (h : ∀ l ∈ ls, l ≠ []) :
    (ls ++ [] :: y).takeWhile (fun l => l ≠ []) = ls := by
  induction ls with
  | nil => simp [List.takeWhile]
  | cons l ls ih =>
    have hl : l ≠ [] := h l (by simp)
    have hih := ih (fun x hx => h x (by simp [hx]))
    simp only [List.cons_append, List.takeWhile_cons]
    simp only [ne_eq, decide_not] at hih ⊢
    simp [hl, hih]

theorem beforeColon_head_cond (l : Bytes) (hl : l ≠ []) :
    ((beforeColon l).head? = some 32 ∨ (beforeColon l).head? = some 9) ↔
      (l.head? = some 32 ∨ l.head? = some 9) := by
  cases l with
  | nil => exact absurd rfl hl
  | cons d ds =>
    by_cases hd : d = 58
    · subst hd
      simp [beforeColon]
    · simp [beforeColon, hd]

theorem orderAdds_eq_filter (ls : List Bytes) (h : ∀ l ∈ ls, l ≠ []) :
    orderAdds ls =
      ((ls.filter (fun l => ¬(l.head? = some 32 ∨ l.head? = some 9))).map beforeColon) := by
  induction ls with
  | nil => rfl
  | cons l ls ih =>
    have hl : l ≠ [] := h l (by simp)
    have hih := ih (fun x hx => h x (by simp [hx]))
    by_cases hc : l.head? = some 32 ∨ l.head? = some 9
    · have hcb := (beforeColon_head_cond l hl).mpr hc
      rcases hc with hc | hc <;>
        simp [orderAdds, if_pos hcb, List.filter_cons, hc, hih]
    · have hcb : ¬((beforeColon l).head? = some 32 ∨ (beforeColon l).head? = some 9) :=
        fun hx => hc ((beforeColon_head_cond l hl).mp hx)
      have h32 : ¬ l.head? = some 32 := fun hx => hc (Or.inl hx)
      have h9 : ¬ l.head? = some 9 := fun hx => hc (Or.inr hx)
      simp [orderAdds, hcb, List.filter_cons, h32, h9, hih]

/-- Amended claim C6: for an LF-terminated header block (non-empty lines,
no stray CR at line ends), `headerOrder` after decomposition equals the
literal top-level field-name sequence of `B`'s header block.  (A top-level
no-colon line whose raw bytes end in CR breaks exactness — see the
counterexample.) -/
theorem c6_header_order_amended (sc : Scanner) (fuel : Nat) (B rest : Bytes)
    (ls : List Bytes) (t : Msg)
    (hdec : decompose sc fuel B [] = some t)
    (herr : (readMIMEHeader B).err = none)
    (hoh : (readMIMEHeader B).oh = unlines ls)
    (hrest : (readMIMEHeader B).rest = rest)
    (hB : B = unlines ls ++ 10 :: rest)
    (hwf : OhWF ls) :
    t.headerOrder = specLiteralNames B := by
  cases fuel with
  | zero => simp [decompose] at hdec
  | succ f =>
    simp only [decompose] at hdec
    rw [herr, hoh, hrest] at hdec
    rw [setOriginalHeaderOrder_unlines _ _ hwf] at hdec
    have hfr := readParts_frame sc f _ t rest hdec
    have hord : t.headerOrder = orderAdds ls := hfr.2.2.1
    have hnn : ∀ l ∈ ls, l ≠ [] := fun l hl => (hwf l hl).1
    have h10 : ∀ l ∈ ls, ¬(10 ∈ l) := fun l hl => (hwf l hl).2.1
    have hcr : ∀ l ∈ ls, l.getLast? ≠ some 13 := fun l hl => (hwf l hl).2.2
    rw [hord, hB]
    unfold specLiteralNames
    rw [splitOnByte_unlines ls (10 :: rest) h10]
    have hsp : splitOnByte 10 (10 :: rest) = [] :: splitOnByte 10 rest := by
      simp [splitOnByte]
    rw [hsp, List.map_append, map_dropCr_id ls hcr]
    have hnil : dropCr ([] : Bytes) = [] := by simp [dropCr]
    simp only [List.map_cons, hnil]
    rw [takeWhile_append_blank ls _ hnn]
    exact orderAdds_eq_filter ls hnn

/-- Witness for the amended C1 round trip: a flat LF message, a
pass-through `message/rfc822` nesting, and an rfc822-typed message whose
unwrap attempt fails (no colon in the nested header). -/
theorem c1_roundtrip_amended_witness :
    build 3 (bs ("\n")) []
        ((decompose noScanner 3 (bs ("A: 1\nB: 2\n\nbody")) []).getD emptyMsg) =
      bs ("A: 1\nB: 2\n\nbody") ∧
    build 5 (bs ("\n")) []
        ((decompose noScanner 5
            (bs ("Content-Type: message/rfc822\n\nA: 1\n\ninner")) []).getD emptyMsg) =
      bs ("Content-Type: message/rfc822\n\nA: 1\n\ninner") ∧
    build 5 (bs ("\n")) []
        ((decompose noScanner 5
            (bs ("Content-Type: message/rfc822\n\nnot a header")) []).getD emptyMsg) =
      bs ("Content-Type: message/rfc822\n\nnot a header") :=
  ⟨c1_roundtrip_amended noScanner 3 (bs ("A: 1\nB: 2\n\nbody")) [] [] _ rfl
      (by decide) 0,
    c1_roundtrip_amended noScanner 5
      (bs ("Content-Type: message/rfc822\n\nA: 1\n\ninner")) [] [] _ rfl (by decide) 0,
    c1_roundtrip_amended noScanner 5
      (bs ("Content-Type: message/rfc822\n\nnot a header")) [] [] _ rfl (by decide) 0⟩

/-- Witness for the amended C5 statement at a concrete LF message. -/
theorem c5_raw_header_amended_witness :
    ((decompose noScanner 3 (bs ("A: 1\nB: 2\n\nbody")) []).getD
          emptyMsg).rawOriginalHeader ++ [10] =
        unlines [bs ("A: 1"), bs ("B: 2")] ∧
      bs ("A: 1\nB: 2\n\nbody") =
        ((decompose noScanner 3 (bs ("A: 1\nB: 2\n\nbody")) []).getD
            emptyMsg).rawOriginalHeader ++ [10, 10] ++ bs ("body") ∧
      emptyMsg.rawOriginalHeader = [] :=
  c5_raw_header_amended noScanner 3 (bs ("A: 1\nB: 2\n\nbody")) (bs ("body"))
    [bs ("A: 1"), bs ("B: 2")] _ rfl (by decide) (by decide) (by decide) (by decide)
    (by decide) (by decide)

/-- Witness for the amended C6 statement at a concrete LF message. -/
theorem c6_header_order_amended_witness :
    ((decompose noScanner 3 (bs ("A: 1\nB: 2\n\nbody")) []).getD emptyMsg).headerOrder =
      specLiteralNames (bs ("A: 1\nB: 2\n\nbody")) :=
  c6_header_order_amended noScanner 3 (bs ("A: 1\nB: 2\n\nbody")) (bs ("body"))
    [bs ("A: 1"), bs ("B: 2")] _ rfl (by decide) (by decide) (by decide) (by decide)
    (by decide)

/-! ## Claim C8: the malformed-header error conditions -/

/-- Modelled from the spec (claim C8): the scan for the first offending
logical line — reading folded logical lines until the blank line ending
the header or EOF, and reporting the first non-empty logical line that
contains no colon.  Unlike `mimeLoop` it computes no header map, no raw
header bytes, and no previews. -/
def scanOffender : Nat → Bytes → Option Bytes
  | 0, _ => none
  | fuel+1, input =>
    match readContinuedLine input with
    | none => none
    | some (kv, _, rest) =>
      if kv = [] then none
      else match colonIdx kv with
        | none => some kv
        | some _ => scanOffender fuel rest

/-- The `MalformedHeader` classification of a reader result: `some (true,
preview)` for the initial-line error, `some (false, preview)` for the
no-colon error, `none` for success or plain EOF. -/
def mimeErrClass (r : MimeResult) : Option (Bool × Bytes) :=
  match r.err with
  | some (.malformedInitial p) => some (true, p)
  | some (.malformedLine p) => some (false, p)
  | _ => none

/-- Modelled from the spec (claim C8): a `MalformedHeader` error occurs
exactly when the very first header line begins with space or tab (carrying
a preview of that physical line), or a non-empty logical line contains no
colon (carrying a preview of that logical line); the preview is the full
line when at most 100 bytes, else its first 50 bytes, an ellipsis, and its
last 50 bytes. -/
def specErrClass (input : Bytes) : Option (Bool × Bytes) :=
  match input.head? with
  | some c =>
    if c = 32 ∨ c = 9 then
      some (true, errorPreview ((readLine input).elim [] (fun x => x.1)))
    else (scanOffender (input.length + 1) input).map (fun kv => (false, errorPreview kv))
  | none => none

theorem mimeLoop_errClass (fuel : Nat) :
    ∀ (m : Header) (oh input : Bytes),
      mimeErrClass (mimeLoop fuel m oh input) =
        (scanOffender fuel input).map (fun kv => (false, errorPreview kv)) := by
  induction fuel with
  | zero => intro m oh input; simp [mimeLoop, scanOffender, mimeErrClass]
  | succ fuel ih =>
    intro m oh input
    simp only [mimeLoop, scanOffender]
    cases hrc : readContinuedLine input with
    | none => simp [mimeErrClass]
    | some v =>
      obtain ⟨kv, orig, rest⟩ := v
      by_cases hkv : kv = []
      · simp [hkv, mimeErrClass]
      · simp only [hkv, if_false, if_neg hkv]
        cases hci : colonIdx kv with
        | none => simp [mimeErrClass]
        | some i =>
          by_cases hkey :
              canonicalMIMEHeaderKey
                (kv.take (i - ((kv.take i).reverse.takeWhile (fun c => c = 32)).length)) = []
          · simp only [hkey, if_pos rfl]
            simpa using ih m _ rest
          · simp only [if_neg hkey]
            simpa using ih _ _ rest

/-- Claim C8: the reader returns a `MalformedHeader` error exactly when
the first line starts with space or tab (the initial-line error, preview
of that physical line) or the scan reaches a non-empty logical line
without a colon (preview of that logical line), with the preview bytes
given by the bounded-preview rule; the classification is computed by a
scan that carries no header map, raw bytes, or preview state, so the
preview never influences control flow. -/
theorem c8_malformed_header_errors (B : Bytes) :
    mimeErrClass (readMIMEHeader B) = specErrClass B := by
  cases B with
  | nil => decide
  | cons c cs =>
    simp only [readMIMEHeader, specErrClass, List.head?]
    by_cases hc : c = 32 ∨ c = 9
    · rw [if_pos hc, if_pos hc]
      cases hr : readLine (c :: cs) with
      | none =>
        exfalso
        have hsm : (readLine (c :: cs)).isSome := by
          show (match splitAtNl (c :: cs) with
            | some (before, after) => some (dropCr before, after)
            | none => some ((c :: cs : Bytes), [])).isSome
          cases splitAtNl (c :: cs) with
          | none => rfl
          | some v => rfl
        rw [hr] at hsm
        simp at hsm
      | some v => simp [hr, mimeErrClass]
    · rw [if_neg hc, if_neg hc]
      exact mimeLoop_errClass _ _ _ _

/-- Witness for C8 on both malformed shapes: a tab-led first line and a
no-colon logical line, each with the documented preview. -/
theorem c8_malformed_header_errors_witness :
    mimeErrClass (readMIMEHeader (bs ("\tx: 1\n\nb"))) =
        specErrClass (bs ("\tx: 1\n\nb")) ∧
      specErrClass (bs ("\tx: 1\n\nb")) = some (true, bs ("\tx: 1")) ∧
      mimeErrClass (readMIMEHeader (bs ("A: 1\nnocolon\n\nb"))) =
        specErrClass (bs ("A: 1\nnocolon\n\nb")) ∧
      specErrClass (bs ("A: 1\nnocolon\n\nb")) = some (false, bs ("nocolon")) :=
  ⟨c8_malformed_header_errors (bs ("\tx: 1\n\nb")), by decide,
    c8_malformed_header_errors (bs ("A: 1\nnocolon\n\nb")), by decide⟩

/-! ## Claim C9: the multipart/body/body-message exclusivity invariant -/

/-- How many of the three content slots of a node are populated: parts,
body, bodyMessage. -/
def popCount (m : Msg) : Nat :=
  (if m.parts.isEmpty then 0 else 1) + (if m.body.isEmpty then 0 else 1) +
    (if m.bodyMessage.isSome then 1 else 0)

/-- Every node of the tree populates at most one of parts / body /
bodyMessage (multipart XOR body XOR nested message XOR empty leaf). -/
inductive InvTree : Msg → Prop where
  | node (m : Msg) (hc : popCount m ≤ 1)
      (hbm : ∀ c, m.bodyMessage = some c → InvTree c)
      (hp : ∀ p, p ∈ m.parts → InvTree p) : InvTree m

/-- The invariant for an optional decomposition result (vacuous on
failure). -/
abbrev invOpt : Option Msg → Prop
  | none => True
  | some t => InvTree t

/-- The invariant for an optional list of part nodes. -/
abbrev invOptList : Option (List Msg) → Prop
  | none => True
  | some l => ∀ p ∈ l, InvTree p

theorem invTree_depth (m : Msg) (d : Nat) (h : InvTree m) :
    InvTree { m with rfc822Depth := d } := by
  cases h with
  | node m hc hbm hp => exact InvTree.node _ hc hbm hp

theorem decompose_readParts_inv (sc : Scanner) (fuel : Nat) :
    (∀ B idx, invOpt (decompose sc fuel B idx)) ∧
      (∀ (m : Msg) (b : Bytes), m.parts = [] → m.body = [] → m.bodyMessage = none →
        invOpt (readParts sc fuel m b)) ∧
      (∀ pidx pdepth ps seq, invOptList (processParts sc fuel pidx pdepth ps seq)) := by
  induction fuel with
  | zero =>
    exact ⟨fun _ _ => by simp [decompose, invOpt],
      fun _ _ _ _ _ => by simp [readParts, invOpt],
      fun _ _ _ _ => by simp [processParts, invOptList]⟩
  | succ fuel ih =>
    obtain ⟨ihd, ihr, ihp⟩ := ih
    refine ⟨?_, ?_, ?_⟩
    · intro B idx
      simp only [decompose]
      cases herr : (readMIMEHeader B).err with
      | some e => simp [invOpt]
      | none =>
        exact ihr _ _ rfl rfl rfl
    · intro m b h1 h2 h3
      simp only [readParts]
      split
      · cases hpp : processParts sc fuel m.idx m.rfc822Depth
            (sc b (parseMediaTypeBoundary (hdrGet m.header (bs ("Content-Type"))))).1 1 with
        | none => simp [invOpt]
        | some children =>
          by_cases hscr :
              (sc b (parseMediaTypeBoundary (hdrGet m.header (bs ("Content-Type"))))).2 = true
          · simp [hscr, invOpt]
          · simp only [if_neg hscr, invOpt]
            refine InvTree.node _ ?_ ?_ ?_
            · cases children <;> simp [popCount, h1, h2, h3]
            · intro c hcon
              simp [h3] at hcon
            · intro p hp
              simp only [h1, List.nil_append] at hp
              have := ihp m.idx m.rfc822Depth
                (sc b (parseMediaTypeBoundary (hdrGet m.header (bs ("Content-Type"))))).1 1
              rw [hpp] at this
              exact this p hp
      · split
        · cases hdc : decodeByContentEncoding b
              (hdrGet m.header (bs ("Content-Transfer-Encoding"))) with
          | none =>
            simp only [invOpt]
            refine InvTree.node _ ?_ ?_ ?_
            · by_cases hb : b = [] <;> simp [popCount, h1, h3, hb]
            · intro c hcon; simp [h3] at hcon
            · intro p hp; simp [h1] at hp
          | some pr =>
            obtain ⟨db, isDec⟩ := pr
            cases hdci : decompose sc fuel db (m.idx ++ bs ("-0")) with
            | none =>
              simp only [hdci, invOpt]
              refine InvTree.node _ ?_ ?_ ?_
              · by_cases hb : b = [] <;> simp [popCount, h1, h3, hb]
              · intro c hcon; simp [h3] at hcon
              · intro p hp; simp [h1] at hp
            | some inner =>
              simp only [hdci, invOpt]
              refine InvTree.node _ ?_ ?_ ?_
              · simp [popCount, h1, h2]
              · intro c hcon
                simp only [Option.some.injEq] at hcon
                have := ihd db (m.idx ++ bs ("-0"))
                rw [hdci] at this
                rw [← hcon]
                exact invTree_depth inner _ this
              · intro p hp; simp [h1] at hp
        · simp only [invOpt]
          refine InvTree.node _ ?_ ?_ ?_
          · by_cases hb : b = [] <;> simp [popCount, h1, h3, hb]
          · intro c hcon; simp [h3] at hcon
          · intro p hp; simp [h1] at hp
    · intro pidx pdepth ps seq
      cases ps with
      | nil => simp [processParts, invOptList]
      | cons p ps2 =>
        simp only [processParts]
        cases hrp : readParts sc fuel
            { emptyMsg with
              header := p.header, rawOriginalHeader := p.rawHeader,
              idx := (if pidx ≠ [] then pidx ++ bs ("-") else []) ++ bs (toString seq),
              rfc822Depth := pdepth } p.body with
        | none => simp [invOptList]
        | some child2 =>
          cases hpp : processParts sc fuel pidx pdepth ps2 (seq + 1) with
          | none => simp [invOptList]
          | some rest =>
            simp only [invOptList, List.mem_cons]
            intro q hq
            rcases hq with hq | hq
            · have := ihr
                { emptyMsg with
                  header := p.header, rawOriginalHeader := p.rawHeader,
                  idx := (if pidx ≠ [] then pidx ++ bs ("-") else []) ++ bs (toString seq),
                  rfc822Depth := pdepth } p.body rfl rfl rfl
              rw [hrp] at this
              exact hq ▸ this
            · have := ihp pidx pdepth ps2 (seq + 1)
              rw [hpp] at this
              exact this q hq

/-- Claim C9: every successful decomposition — for every multipart
scanner, fuel, input and index — yields a tree in which each node
populates at most one of `parts`, `body`, `bodyMessage`, recursively. -/
theorem c9_tree_invariant (sc : Scanner) (fuel : Nat) (B idx : Bytes) :
    invOpt (decompose sc fuel B idx) :=
  (decompose_readParts_inv sc fuel).1 B idx

/-! ## Claim C10: the effects of Merge -/

theorem find?_map_keyswap (h : List (Bytes × List Bytes)) (ck key : Bytes)
    (v : List Bytes) (hne : ck ≠ key) :
    List.find? (fun e => e.1 = key) (h.map (fun e => if e.1 = ck then (ck, v) else e)) =
      List.find? (fun e => e.1 = key) h := by
  induction h with
  | nil => rfl
  | cons e h ih =>
    simp only [List.map_cons]
    by_cases he : e.1 = ck
    · rw [if_pos he, List.find?_cons_of_neg _ (by simp [hne]),
        List.find?_cons_of_neg _ (by simp [he, hne])]
      exact ih
    · rw [if_neg he]
      by_cases hk : e.1 = key
      · rw [List.find?_cons_of_pos _ (by simp [hk]), List.find?_cons_of_pos _ (by simp [hk])]
      · rw [List.find?_cons_of_neg _ (by simp [hk]), List.find?_cons_of_neg _ (by simp [hk])]
        exact ih

theorem find?_append_single_ne (h : List (Bytes × List Bytes)) (ck key : Bytes)
    (v : List Bytes) (hne : ck ≠ key) :
    List.find? (fun e => e.1 = key) (h ++ [(ck, v)]) =
      List.find? (fun e => e.1 = key) h := by
  induction h with
  | nil => simp [List.find?, hne]
  | cons e h ih =>
    rw [List.cons_append]
    by_cases hk : e.1 = key
    · rw [List.find?_cons_of_pos _ (by simp [hk]), List.find?_cons_of_pos _ (by simp [hk])]
    · rw [List.find?_cons_of_neg _ (by simp [hk]), List.find?_cons_of_neg _ (by simp [hk])]
      exact ih

theorem find?_filter_ne (h : List (Bytes × List Bytes)) (ck key : Bytes) (hne : ck ≠ key) :
    List.find? (fun e => e.1 = key) (h.filter (fun e => e.1 ≠ ck)) =
      List.find? (fun e => e.1 = key) h := by
  induction h with
  | nil => rfl
  | cons e h ih =>
    by_cases he : e.1 = ck
    · rw [List.filter_cons_of_neg (by simp [he]),
        List.find?_cons_of_neg _ (by simp [he, hne])]
      exact ih
    · rw [List.filter_cons_of_pos (by simp [he])]
      by_cases hk : e.1 = key
      · rw [List.find?_cons_of_pos _ (by simp [hk]), List.find?_cons_of_pos _ (by simp [hk])]
      · rw [List.find?_cons_of_neg _ (by simp [hk]), List.find?_cons_of_neg _ (by simp [hk])]
        exact ih

theorem find?_filter_self (h : List (Bytes × List Bytes)) (ck : Bytes) :
    List.find? (fun e => e.1 = ck) (h.filter (fun e => e.1 ≠ ck)) = none := by
  induction h with
  | nil => rfl
  | cons e h ih =>
    by_cases he : e.1 = ck
    · rw [List.filter_cons_of_neg (by simp [he])]
      exact ih
    · rw [List.filter_cons_of_pos (by simp [he]), List.find?_cons_of_neg _ (by simp [he])]
      exact ih

theorem hdrFind_set_ne (h : Header) (k v key : Bytes)
    (hne : canonicalMIMEHeaderKey k ≠ key) :
    hdrFind (hdrSet h k v) key = hdrFind h key := by
  simp only [hdrSet]
  split
  · unfold hdrFind
    rw [find?_map_keyswap h _ key [v] hne]
  · unfold hdrFind
    rw [find?_append_single_ne h _ key [v] hne]

theorem hdrFind_del_ne (h : Header) (k key : Bytes)
    (hne : canonicalMIMEHeaderKey k ≠ key) :
    hdrFind (hdrDel h k) key = hdrFind h key := by
  simp only [hdrDel, hdrFind]
  rw [find?_filter_ne h _ key hne]

theorem hdrFind_del_self (h : Header) (k : Bytes) :
    hdrFind (hdrDel h k) (canonicalMIMEHeaderKey k) = none := by
  simp only [hdrDel, hdrFind]
  rw [find?_filter_self h _]
  rfl

theorem mergeStep_nilvals (acc : Header) (k : Bytes) :
    mergeStep acc (k, []) = acc := rfl

theorem mergeStep_eq_del (acc : Header) (k : Bytes) (vs : List Bytes) :
    mergeStep acc (k, ([] : Bytes) :: vs) = hdrDel acc k := by
  simp [mergeStep]

theorem mergeStep_eq_set (acc : Header) (k v : Bytes) (vs : List Bytes) (hv : v ≠ []) :
    mergeStep acc (k, v :: vs) = hdrSet acc k v := by
  simp [mergeStep, hv]

theorem mergeFold_find_frame (hdr : List (Bytes × List Bytes)) :
    ∀ (acc : Header) (K : Bytes),
      (∀ e ∈ hdr, canonicalMIMEHeaderKey e.1 ≠ K) →
      hdrFind (hdr.foldl mergeStep acc) K = hdrFind acc K := by
  induction hdr with
  | nil => intro acc K _; rfl
  | cons e hdr ih =>
    obtain ⟨ek, evs⟩ := e
    intro acc K hne
    rw [List.foldl_cons, ih _ K (fun x hx => hne x (by simp [hx]))]
    have hek : canonicalMIMEHeaderKey ek ≠ K := hne (ek, evs) (by simp)
    cases evs with
    | nil => rw [mergeStep_nilvals]
    | cons v vs =>
      by_cases hv : v = []
      · rw [hv, mergeStep_eq_del]
        exact hdrFind_del_ne acc ek K hek
      · rw [mergeStep_eq_set _ _ _ _ hv]
        exact hdrFind_set_ne acc ek v K hek

theorem mergeFold_find_none (hdr : List (Bytes × List Bytes)) :
    ∀ (acc : Header) (K : Bytes),
      (∃ e ∈ hdr, canonicalMIMEHeaderKey e.1 = K) →
      (∀ e ∈ hdr, canonicalMIMEHeaderKey e.1 = K → e.2.head? = some ([] : Bytes)) →
      hdrFind (hdr.foldl mergeStep acc) K = none := by
  induction hdr with
  | nil => intro acc K hex _; simp at hex
  | cons e hdr ih =>
    obtain ⟨ek, evs⟩ := e
    intro acc K hex h2
    rw [List.foldl_cons]
    by_cases hrest : ∃ x ∈ hdr, canonicalMIMEHeaderKey x.1 = K
    · exact ih _ K hrest (fun x hx hk => h2 x (by simp [hx]) hk)
    · have hk : canonicalMIMEHeaderKey ek = K := by
        rcases hex with ⟨x, hx, hxk⟩
        rcases List.mem_cons.mp hx with hx | hx
        · rw [hx] at hxk; exact hxk
        · exact absurd ⟨x, hx, hxk⟩ hrest
      have hhead : ((ek, evs) : Bytes × List Bytes).2.head? = some ([] : Bytes) :=
        h2 (ek, evs) (by simp) hk
      obtain ⟨vs, hvs⟩ : ∃ vs, evs = ([] : Bytes) :: vs := by
        cases hv : evs with
        | nil => rw [hv] at hhead; simp at hhead
        | cons a b =>
          rw [hv] at hhead
          simp only [List.head?] at hhead
          injection hhead with ha
          exact ⟨b, by rw [← ha]⟩
      rw [mergeFold_find_frame hdr _ K (fun x hx hc => hrest ⟨x, hx, hc⟩)]
      rw [hvs, mergeStep_eq_del]
      rw [← hk]
      exact hdrFind_del_self acc ek

/-- Claim C10: `Merge` marks the target header changed while leaving
`rawOriginalHeader` and `headerOrder` untouched, so a subsequent
`BuildHeader` takes the reconstruction path and never emits the raw header
verbatim; it replaces body, body message, parts and boundary wholesale
from the source; and any key whose source entries all carry the empty
string as first value is deleted from the target map.  The hypothesis
`hwf` excludes source entries with an empty value list, on which the Go
code would panic. -/
theorem c10_merge_effects (c m : Msg) (nl K : Bytes)
    (_hwf : ∀ e ∈ m.header, e.2 ≠ [])
    (h1 : ∃ e ∈ m.header, canonicalMIMEHeaderKey e.1 = K)
    (h2 : ∀ e ∈ m.header, canonicalMIMEHeaderKey e.1 = K → e.2.head? = some ([] : Bytes)) :
    (merge c m).headerIsChanged = true ∧
      (merge c m).rawOriginalHeader = c.rawOriginalHeader ∧
      (merge c m).headerOrder = c.headerOrder ∧
      (merge c m).body = m.body ∧
      (merge c m).bodyMessage = m.bodyMessage ∧
      (merge c m).parts = m.parts ∧
      (merge c m).boundary = m.boundary ∧
      buildHeader nl (merge c m) = buildHeaderRecon nl (merge c m) ∧
      hdrFind (merge c m).header K = none := by
  refine ⟨rfl, rfl, rfl, rfl, rfl, rfl, rfl, ?_, ?_⟩
  · simp [buildHeader, merge]
  · exact mergeFold_find_none m.header c.header K h1 h2

/-- Witness for C10 at a concrete target and source: the source sets key
`X` to the empty string, so `X` disappears from the merged map while the
raw header and order stay those of the target. -/
theorem c10_merge_effects_witness :
    (merge { emptyMsg with
              header := [(bs ("A"), [bs ("1")]), (bs ("X"), [bs ("2")])],
              rawOriginalHeader := bs ("A: 1"), headerOrder := [bs ("A")] }
        { emptyMsg with
          header := [(bs ("X"), [([] : Bytes)])], body := bs ("b"),
          boundary := bs ("bd") }).headerIsChanged = true ∧
      (merge { emptyMsg with
                header := [(bs ("A"), [bs ("1")]), (bs ("X"), [bs ("2")])],
                rawOriginalHeader := bs ("A: 1"), headerOrder := [bs ("A")] }
          { emptyMsg with
            header := [(bs ("X"), [([] : Bytes)])], body := bs ("b"),
            boundary := bs ("bd") }).rawOriginalHeader =
        ({ emptyMsg with
           header := [(bs ("A"), [bs ("1")]), (bs ("X"), [bs ("2")])],
           rawOriginalHeader := bs ("A: 1"), headerOrder := [bs ("A")] } : Msg).rawOriginalHeader ∧
      (merge { emptyMsg with
                header := [(bs ("A"), [bs ("1")]), (bs ("X"), [bs ("2")])],
                rawOriginalHeader := bs ("A: 1"), headerOrder := [bs ("A")] }
          { emptyMsg with
            header := [(bs ("X"), [([] : Bytes)])], body := bs ("b"),
            boundary := bs ("bd") }).headerOrder =
        ({ emptyMsg with
           header := [(bs ("A"), [bs ("1")]), (bs ("X"), [bs ("2")])],
           rawOriginalHeader := bs ("A: 1"), headerOrder := [bs ("A")] } : Msg).headerOrder ∧
      (merge { emptyMsg with
                header := [(bs ("A"), [bs ("1")]), (bs ("X"), [bs ("2")])],
                rawOriginalHeader := bs ("A: 1"), headerOrder := [bs ("A")] }
          { emptyMsg with
            header := [(bs ("X"), [([] : Bytes)])], body := bs ("b"),
            boundary := bs ("bd") }).body =
        ({ emptyMsg with
           header := [(bs ("X"), [([] : Bytes)])], body := bs ("b"),
           boundary := bs ("bd") } : Msg).body ∧
      (merge { emptyMsg with
                header := [(bs ("A"), [bs ("1")]), (bs ("X"), [bs ("2")])],
                rawOriginalHeader := bs ("A: 1"), headerOrder := [bs ("A")] }
          { emptyMsg with
            header := [(bs ("X"), [([] : Bytes)])], body := bs ("b"),
            boundary := bs ("bd") }).bodyMessage =
        ({ emptyMsg with
           header := [(bs ("X"), [([] : Bytes)])], body := bs ("b"),
           boundary := bs ("bd") } : Msg).bodyMessage ∧
      (merge { emptyMsg with
                header := [(bs ("A"), [bs ("1")]), (bs ("X"), [bs ("2")])],
                rawOriginalHeader := bs ("A: 1"), headerOrder := [bs ("A")] }
          { emptyMsg with
            header := [(bs ("X"), [([] : Bytes)])], body := bs ("b"),
            boundary := bs ("bd") }).parts =
        ({ emptyMsg with
           header := [(bs ("X"), [([] : Bytes)])], body := bs ("b"),
           boundary := bs ("bd") } : Msg).parts ∧
      (merge { emptyMsg with
                header := [(bs ("A"), [bs ("1")]), (bs ("X"), [bs ("2")])],
                rawOriginalHeader := bs ("A: 1"), headerOrder := [bs ("A")] }
          { emptyMsg with
            header := [(bs ("X"), [([] : Bytes)])], body := bs ("b"),
            boundary := bs ("bd") }).boundary =
        ({ emptyMsg with
           header := [(bs ("X"), [([] : Bytes)])], body := bs ("b"),
           boundary := bs ("bd") } : Msg).boundary ∧
      buildHeader (bs ("\n"))
          (merge { emptyMsg with
                    header := [(bs ("A"), [bs ("1")]), (bs ("X"), [bs ("2")])],
                    rawOriginalHeader := bs ("A: 1"), headerOrder := [bs ("A")] }
            { emptyMsg with
              header := [(bs ("X"), [([] : Bytes)])], body := bs ("b"),
              boundary := bs ("bd") }) =
        buildHeaderRecon (bs ("\n"))
          (merge { emptyMsg with
                    header := [(bs ("A"), [bs ("1")]), (bs ("X"), [bs ("2")])],
                    rawOriginalHeader := bs ("A: 1"), headerOrder := [bs ("A")] }
            { emptyMsg with
              header := [(bs ("X"), [([] : Bytes)])], body := bs ("b"),
              boundary := bs ("bd") }) ∧
      hdrFind
          (merge { emptyMsg with
                    header := [(bs ("A"), [bs ("1")]), (bs ("X"), [bs ("2")])],
                    rawOriginalHeader := bs ("A: 1"), headerOrder := [bs ("A")] }
            { emptyMsg with
              header := [(bs ("X"), [([] : Bytes)])], body := bs ("b"),
              boundary := bs ("bd") }).header (bs ("X")) = none :=
  c10_merge_effects
    { emptyMsg with
      header := [(bs ("A"), [bs ("1")]), (bs ("X"), [bs ("2")])],
      rawOriginalHeader := bs ("A: 1"), headerOrder := [bs ("A")] }
    { emptyMsg with
      header := [(bs ("X"), [([] : Bytes)])], body := bs ("b"),
      boundary := bs ("bd") }
    (bs ("\n")) (bs ("X")) (by decide) (by decide) (by decide)

/-! ## Amended claim C4: boundary delimiter counting -/

theorem splitOnByte_ne_nil (b : Nat) (s : Bytes) : splitOnByte b s ≠ [] := by
  induction s with
  | nil => simp [splitOnByte]
  | cons c cs ih =>
    by_cases hc : c = b
    · simp [splitOnByte, hc]
    · cases h : splitOnByte b cs with
      | nil => exact absurd h ih
      | cons l r => simp [splitOnByte, hc, h]

theorem linesOf_append (a b2 : Bytes) :
    linesOf (a ++ 10 :: b2) = linesOf a ++ linesOf b2 := by
  unfold linesOf
  induction a with
  | nil => simp [splitOnByte]
  | cons c a ih =>
    by_cases hc : c = 10
    · subst hc
      simp [splitOnByte, ih]
    · obtain ⟨l1, r1, h1⟩ : ∃ l1 r1, splitOnByte 10 a = l1 :: r1 := by
        cases h : splitOnByte 10 a with
        | nil => exact absurd h (splitOnByte_ne_nil 10 a)
        | cons l r => exact ⟨l, r, rfl⟩
      simp [splitOnByte, hc, ih, h1]

theorem buildF_many_cons (fuel : Nat) (nl rb bd : Bytes) (p : Msg) (ps : List Msg)
    (first : Bool) :
    buildF (fuel+1) (.many nl rb bd (p :: ps) first) =
      (if first then [] else nl) ++ nl ++ bs ("--") ++ bd ++ nl ++
        buildF fuel (.one nl rb p) ++ buildF fuel (.many nl rb bd ps false) := rfl

theorem buildF_many_nil (fuel : Nat) (nl rb bd : Bytes) (first : Bool) :
    buildF fuel (.many nl rb bd [] first) = [] := by
  cases fuel with
  | zero => rfl
  | succ g => rfl

/-- Amended claim C4: for every message with exactly three parts, boundary
`"abc"`, no direct body and no nested message, whose built parts contain
no line equal to `--abc` or `--abc--` (at any build depth), the built body
contains exactly **three** `--abc` delimiter lines — one before each part,
including the first — and exactly one final `--abc--` line. -/
theorem c4_boundary_lines_amended (rb : Bytes) (f : Nat) (m : Msg) (p1 p2 p3 : Msg)
    (hparts : m.parts = [p1, p2, p3])
    (hbd : m.boundary = bs ("abc"))
    (hbody : m.body = [])
    (hbm : m.bodyMessage = none)
    (hp : ∀ (f2 : Nat) (p : Msg), p ∈ m.parts →
      ¬(bs ("--abc")) ∈ linesOf (build f2 (bs ("\n")) rb p) ∧
        ¬(bs ("--abc--")) ∈ linesOf (build f2 (bs ("\n")) rb p)) :
    (linesOf (buildBody (f+1+1+1) (bs ("\n")) rb m)).count (bs ("--abc")) = 3 ∧
      (linesOf (buildBody (f+1+1+1) (bs ("\n")) rb m)).count (bs ("--abc--")) = 1 := by
  have habc_ne : (bs ("abc") = ([] : Bytes)) = False := by simp [bs]
  have hbodyEq : buildBody (f+1+1+1) (bs ("\n")) rb m =
      ([] : Bytes) ++ 10 :: (bs ("--abc") ++ 10 :: (build (f+1+1) (bs ("\n")) rb p1 ++
        10 :: (([] : Bytes) ++ 10 :: (bs ("--abc") ++ 10 :: (build (f+1) (bs ("\n")) rb p2 ++
          10 :: (([] : Bytes) ++ 10 :: (bs ("--abc") ++ 10 :: (build f (bs ("\n")) rb p3 ++
            10 :: (bs ("--abc--") ++ 10 :: ([] : Bytes)))))))))) := by
    simp only [buildBody, hbm, hbody, hparts, hbd, habc_ne, build,
      buildF_many_cons, buildF_many_nil, bs_nl]
    simp [bs, List.append_assoc]
  rw [hbodyEq]
  simp only [linesOf_append]
  have hLnil : linesOf ([] : Bytes) = [([] : Bytes)] := by decide
  have hLD : linesOf (bs ("--abc")) = [bs ("--abc")] := by decide
  have hLDD : linesOf (bs ("--abc--")) = [bs ("--abc--")] := by decide
  have hm1 : p1 ∈ m.parts := by simp [hparts]
  have hm2 : p2 ∈ m.parts := by simp [hparts]
  have hm3 : p3 ∈ m.parts := by simp [hparts]
  have hc1 := hp (f+1+1) p1 hm1
  have hc2 := hp (f+1) p2 hm2
  have hc3 := hp f p3 hm3
  rw [hLnil, hLD, hLDD]
  have z1 : (linesOf (build (f+1+1) (bs ("\n")) rb p1)).count (bs ("--abc")) = 0 :=
    List.count_eq_zero.mpr hc1.1
  have z2 : (linesOf (build (f+1) (bs ("\n")) rb p2)).count (bs ("--abc")) = 0 :=
    List.count_eq_zero.mpr hc2.1
  have z3 : (linesOf (build f (bs ("\n")) rb p3)).count (bs ("--abc")) = 0 :=
    List.count_eq_zero.mpr hc3.1
  have w1 : (linesOf (build (f+1+1) (bs ("\n")) rb p1)).count (bs ("--abc--")) = 0 :=
    List.count_eq_zero.mpr hc1.2
  have w2 : (linesOf (build (f+1) (bs ("\n")) rb p2)).count (bs ("--abc--")) = 0 :=
    List.count_eq_zero.mpr hc2.2
  have w3 : (linesOf (build f (bs ("\n")) rb p3)).count (bs ("--abc--")) = 0 :=
    List.count_eq_zero.mpr hc3.2
  constructor
  · simp only [List.count_append, z1, z2, z3]
    decide
  · simp only [List.count_append, w1, w2, w3]
    decide

/-- Witness for the amended C4 at the concrete three-part message. -/
theorem c4_boundary_lines_amended_witness :
    (linesOf (buildBody (0+1+1+1) (bs ("\n")) [] c4msg)).count (bs ("--abc")) = 3 ∧
      (linesOf (buildBody (0+1+1+1) (bs ("\n")) [] c4msg)).count (bs ("--abc--")) = 1 := by
  refine c4_boundary_lines_amended [] 0 c4msg
    { emptyMsg with body := bs ("x") } { emptyMsg with body := bs ("y") }
    { emptyMsg with body := bs ("z") } rfl rfl rfl rfl ?_
  intro f2 p hpm
  have hpm2 : p = { emptyMsg with body := bs ("x") } ∨
      p = { emptyMsg with body := bs ("y") } ∨
      p = { emptyMsg with body := bs ("z") } := by
    simpa [c4msg] using hpm
  cases f2 with
  | zero =>
    rcases hpm2 with rfl | rfl | rfl <;> exact ⟨by decide, by decide⟩
  | succ g =>
    rcases hpm2 with rfl | rfl | rfl
    · have hv : build (g+1) (bs ("\n")) [] { emptyMsg with body := bs ("x") } =
        [10, 10, 120] := rfl
      rw [hv]; exact ⟨by decide, by decide⟩
    · have hv : build (g+1) (bs ("\n")) [] { emptyMsg with body := bs ("y") } =
        [10, 10, 121] := rfl
      rw [hv]; exact ⟨by decide, by decide⟩
    · have hv : build (g+1) (bs ("\n")) [] { emptyMsg with body := bs ("z") } =
        [10, 10, 122] := rfl
      rw [hv]; exact ⟨by decide, by decide⟩

/-! ## The base64 half of claim C7: the round trip that does hold -/

theorem b64char_ge (n : Nat) : 43 ≤ b64char n := by
  unfold b64char
  split_ifs <;> omega

theorem b64char_ne_61 (n : Nat) : b64char n ≠ 61 := by
  unfold b64char
  split_ifs <;> omega

theorem b64charVal_b64char (n : Nat) (h : n < 64) : b64charVal (b64char n) = some n := by
  have hall : ∀ m : Fin 64, b64charVal (b64char m.val) = some m.val := by decide
  exact hall ⟨n, h⟩

theorem b64encode_members : (X : Bytes) → ∀ y ∈ b64encode X, y = 61 ∨ 43 ≤ y
  | [] => by simp [b64encode]
  | [a] => by
    intro y hy
    simp only [b64encode, List.mem_cons, List.not_mem_nil, or_false] at hy
    rcases hy with rfl | rfl | rfl | rfl
    · exact Or.inr (b64char_ge _)
    · exact Or.inr (b64char_ge _)
    · exact Or.inl rfl
    · exact Or.inl rfl
  | [a, b] => by
    intro y hy
    simp only [b64encode, List.mem_cons, List.not_mem_nil, or_false] at hy
    rcases hy with rfl | rfl | rfl | rfl
    · exact Or.inr (b64char_ge _)
    · exact Or.inr (b64char_ge _)
    · exact Or.inr (b64char_ge _)
    · exact Or.inl rfl
  | a :: b :: c :: rest => by
    intro y hy
    simp only [b64encode, List.cons_append, List.nil_append, List.mem_cons] at hy
    rcases hy with rfl | rfl | rfl | rfl | h
    · exact Or.inr (b64char_ge _)
    · exact Or.inr (b64char_ge _)
    · exact Or.inr (b64char_ge _)
    · exact Or.inr (b64char_ge _)
    · exact b64encode_members rest y h

theorem breakLoop_members (n : Nat) (sep : Bytes) :
    ∀ (fuel : Nat) (data : Bytes), ∀ y ∈ breakLoop fuel data n sep, y ∈ data ∨ y ∈ sep := by
  intro fuel
  induction fuel with
  | zero => intro data y hy; exact Or.inl hy
  | succ f ih =>
    intro data y hy
    simp only [breakLoop] at hy
    split at hy
    · exact Or.inl hy
    · simp only [List.mem_append] at hy
      rcases hy with (hy | hy) | hy
      · exact Or.inl (List.mem_of_mem_take hy)
      · exact Or.inr hy
      · rcases ih _ y hy with hy | hy
        · exact Or.inl (List.mem_of_mem_drop hy)
        · exact Or.inr hy

theorem breakLoop_filter (p : Nat → Bool) (hp : p 10 = false) :
    ∀ (fuel : Nat) (data : Bytes) (n : Nat),
      (breakLoop fuel data n [10]).filter p = data.filter p := by
  intro fuel
  induction fuel with
  | zero => intro data n; rfl
  | succ f ih =>
    intro data n
    simp only [breakLoop]
    split
    · rfl
    · rw [List.filter_append, List.filter_append, ih]
      have hsep : List.filter p [10] = [] := by simp [List.filter, hp]
      rw [hsep, List.append_nil, ← List.filter_append, List.take_append_drop]

theorem filter_dropWhile_eq (p f : Nat → Bool) :
    ∀ s : Bytes, (∀ y ∈ s, f y = true → p y = false) →
      (s.dropWhile f).filter p = s.filter p := by
  intro s
  induction s with
  | nil => intro _; rfl
  | cons c s ih =>
    intro h
    by_cases hf : f c = true
    · rw [List.dropWhile_cons_of_pos hf, ih (fun y hy => h y (by simp [hy])),
        List.filter_cons_of_neg (by simp [h c (by simp) hf])]
    · rw [List.dropWhile_cons_of_neg hf]

theorem filter_trimCutset (p : Nat → Bool) (cut : List Nat) (s : Bytes)
    (h : ∀ y ∈ s, cut.contains y = true → p y = false) :
    (trimCutset s cut).filter p = s.filter p := by
  unfold trimCutset
  have h1 : ((s.dropWhile (fun c => cut.contains c)).filter p) = s.filter p :=
    filter_dropWhile_eq p _ s h
  have hsub : ∀ y ∈ (s.dropWhile (fun c => cut.contains c)).reverse,
      cut.contains y = true → p y = false := by
    intro y hy
    exact h y (List.dropWhile_subset _ (List.mem_reverse.mp hy))
  rw [List.filter_reverse, filter_dropWhile_eq p _ _ hsub, List.filter_reverse, h1,
    List.reverse_reverse]

theorem b64quads_encode : (X : Bytes) → (∀ y ∈ X, y < 256) →
    b64quads (b64encode X) = some X
  | [], _ => rfl
  | [a], h => by
    have ha : a < 256 := h a (by simp)
    have h1 := b64charVal_b64char (a / 4) (by omega)
    have h2 := b64charVal_b64char (a % 4 * 16) (by omega)
    simp only [b64encode, b64quads]
    simp [h1, h2]
    omega
  | [a, b], h => by
    have ha : a < 256 := h a (by simp)
    have hb : b < 256 := h b (by simp)
    have h1 := b64charVal_b64char (a / 4) (by omega)
    have h2 := b64charVal_b64char (a % 4 * 16 + b / 16) (by omega)
    have h3 := b64charVal_b64char (b % 16 * 4) (by omega)
    simp only [b64encode, b64quads]
    rw [if_neg (by
      intro hcon
      exact b64char_ne_61 (b % 16 * 4) hcon.1)]
    simp [h1, h2, h3]
    omega
  | a :: b :: c :: rest, h => by
    have ha : a < 256 := h a (by simp)
    have hb : b < 256 := h b (by simp)
    have hc : c < 256 := h c (by simp)
    have h1 := b64charVal_b64char (a / 4) (by omega)
    have h2 := b64charVal_b64char (a % 4 * 16 + b / 16) (by omega)
    have h3 := b64charVal_b64char (b % 16 * 4 + c / 64) (by omega)
    have h4 := b64charVal_b64char (c % 64) (by omega)
    have hrec := b64quads_encode rest (fun y hy => h y (by simp [hy]))
    simp only [b64encode, List.cons_append, List.nil_append, b64quads]
    rw [if_neg (by
      intro hcon
      exact b64char_ne_61 (b % 16 * 4 + c / 64) hcon.1)]
    rw [if_neg (by
      intro hcon
      exact b64char_ne_61 (c % 64) hcon.1)]
    simp [h1, h2, h3, h4, hrec]
    omega

/-- The base64 half of claim C7 holds: for every byte sequence,
decoding the encoding (with its 76-column LF wrapping) returns the input
with `wasTransformed = true` and no error.  Only the quoted-printable half
of the claim fails. -/
theorem b64_roundtrip (X : Bytes) (hX : ∀ y ∈ X, y < 256) :
    decodeByContentEncoding (encodeByContentEncoding X (bs ("base64"))) (bs ("base64")) =
      some (X, true) := by
  simp only [encodeByContentEncoding, decodeByContentEncoding]
  rw [if_pos trivial, if_pos trivial]
  unfold b64decodeGo byteBreakLines
  set p : Nat → Bool := fun c => c ≠ 13 && c ≠ 10 with hp
  have hstep1 :
      (trimCutset (breakLoop ((b64encode X).length + 1) (b64encode X) 76 (bs ("\n")))
          [13, 10, 9]).filter p =
        (breakLoop ((b64encode X).length + 1) (b64encode X) 76 (bs ("\n"))).filter p := by
    apply filter_trimCutset
    intro y hy hcut
    rcases breakLoop_members 76 (bs ("\n")) _ _ y hy with hmem | hmem
    · rcases b64encode_members X y hmem with rfl | hge
      · exact absurd hcut (by decide)
      · exfalso
        simp only [List.contains_cons, List.contains_nil, Bool.or_eq_true, beq_iff_eq] at hcut
        rcases hcut with rfl | rfl | rfl | hcut
        · omega
        · omega
        · omega
        · exact Bool.noConfusion hcut
    · rw [show bs ("\n") = [10] from rfl] at hmem
      have hy10 : y = 10 := by simpa using hmem
      simp [hp, hy10]
  have hstep2 :
      (breakLoop ((b64encode X).length + 1) (b64encode X) 76 (bs ("\n"))).filter p =
        b64encode X := by
    rw [show bs ("\n") = [10] from rfl, breakLoop_filter p (by simp [hp])]
    apply List.filter_eq_self.mpr
    intro y hy
    rcases b64encode_members X y hy with rfl | hge
    · simp [hp]
    · simp only [hp, Bool.and_eq_true, bne_iff_ne, ne_eq, decide_eq_true_eq]
      omega
  rw [hstep1, hstep2, b64quads_encode X hX]
  rfl

/-- Witness for the base64 round trip at a concrete three-byte input. -/
theorem b64_roundtrip_witness :
    decodeByContentEncoding (encodeByContentEncoding (bs ("hi!")) (bs ("base64")))
        (bs ("base64")) = some (bs ("hi!"), true) :=
  b64_roundtrip (bs ("hi!")) (by decide)

end Mailbuilder
